import Mathlib

/-!
Verification of the sisifus-analytics core: the email status classifier
(`src/classifier.py`), the per-company flow resolver and the Sankey flow-graph
builder (`src/analytics.py`), shallowly embedded in Lean.

Modelling conventions:
* Python strings are modelled as `List Char`; `str.lower()` is modelled as the
  ASCII lower-case map (all patterns in the source are lower-case ASCII).
* Every regular expression in the source has the shape
  `lit₁.*lit₂.*…*litₙ` (literal segments separated by `.*`).  Such a pattern is
  represented as the list of its literal segments; `re.search` semantics is
  "the segments occur in order, and the gaps matched by `.*` contain no
  newline" (Python's `.` does not match `'\n'`).  A leading or trailing `.*`
  is dropped (it can always match the empty string under `search`).
* Confidence scores in the source are floats drawn from
  {0, 0.3, 0.5, 0.7, 0.9, 1.0} built by `min(1.0, 0.3 + 0.2*m)` plus a `+0.2`
  boost capped at `1.0`; all these arithmetic results and the thresholds are
  exact multiples of 0.1 in IEEE double precision (in particular
  `0.3 + 0.2 == 0.5` exactly), so scores are modelled in tenths as `Nat`:
  score 5 = 0.5, threshold `> 0.3` = `> 3`, etc.
-/

set_option maxRecDepth 8000
set_option maxHeartbeats 1000000

namespace Sisifus

/-- The closed enumeration of status categories produced by the classifier
(`EmailClassifier` doc-string).  `interview k` models the string
`"interview_k"`. -/
inductive Status where
  | not_job_related
  | no_reply
  | applied
  | confirmation
  | interview (stage : Nat)
  | offer
  | accepted
  | rejected
  | withdrew
deriving DecidableEq, Repr

/-- ASCII model of Python `str.lower` on one character. -/
def lowerChar (c : Char) : Char :=
  if 'A' ≤ c ∧ c ≤ 'Z' then Char.ofNat (c.toNat + 32) else c

/-- ASCII model of Python `str.lower`. -/
def lowerText (t : List Char) : List Char := t.map lowerChar

/-- Does the text start with the given literal segment? -/
def startsWithSeg : List Char → List Char → Bool
  | [], _ => true
  | _ :: _, [] => false
  | a :: as, b :: bs => (a == b) && startsWithSeg as bs

/-- Find segment `s` after a gap matched by `.*` (any characters except a
newline) and run the continuation `k` on the text following the segment. -/
def seekSeg (s : List Char) (k : List Char → Bool) : List Char → Bool
  | [] => startsWithSeg s [] && k ([].drop s.length)
  | c :: t' =>
    (startsWithSeg s (c :: t') && k ((c :: t').drop s.length)) ||
      ((c != '\n') && seekSeg s k t')

/-- Match the literal segments in order against the text, where each segment
may be preceded by a gap matched by `.*`.  This is the continuation of a regex
match after its first segment. -/
def gapScan : List (List Char) → List Char → Bool
  | [], _ => true
  | s :: rest, t => seekSeg s (gapScan rest) t

/-- Match the segment pattern anchored at the start of the text (the first
segment must occur exactly at the current position). -/
def segsAt : List (List Char) → List Char → Bool
  | [], _ => true
  | s :: rest, t => startsWithSeg s t && gapScan rest (t.drop s.length)

/-- `re.search` for a `lit₁.*…*litₙ` pattern: the match may start at any
position of the text. -/
def patSearch (segs : List (List Char)) : List Char → Bool
  | [] => segsAt segs []
  | t@(_ :: t') => segsAt segs t || patSearch segs t'

/-- Helper turning a list of literal segments written as strings into a
pattern. -/
def pw (segs : List String) : List (List Char) := segs.map String.toList

/-! ### Pattern data (`EmailClassifier.STATUS_KEYWORDS`) -/

def applied_patterns : List (List (List Char)) :=
  [pw ["application", "submitted"], pw ["application", "received"],
   pw ["thank", "for", "your", "application"],
   pw ["we", "received", "your", "application"], pw ["application", "sent"],
   pw ["applied", "for"], pw ["your", "application"],
   pw ["alert", "application"], pw ["candidate-se"], pw ["candidate", "se"],
   pw ["aplicar"], pw ["novas", "vagas"], pw ["job", "opportunity"],
   pw ["opportunity"], pw ["vagas", "em"], pw ["job", "alert"],
   pw ["new", "position"], pw ["open", "position"],
   pw ["we", "are", "hiring"], pw ["looking", "for"]]

def confirmation_patterns : List (List (List Char)) :=
  [pw ["confirmation", "application"], pw ["application", "confirm"],
   pw ["we", "have", "received", "application"],
   pw ["application", "successfully", "received"],
   pw ["confirm", "receipt", "application"],
   pw ["application", "status", "update"]]

def interview_1_patterns : List (List (List Char)) :=
  [pw ["first", "interview"], pw ["initial", "interview"],
   pw ["screening", "interview"], pw ["phone", "screen"],
   pw ["phone", "interview"], pw ["video", "screen"],
   pw ["video", "interview"], pw ["preliminary", "interview"],
   pw ["first", "round"], pw ["round", "1", "interview"],
   pw ["first", "round", "interview"], pw ["take", "home", "assessment"],
   pw ["assessment"]]

def interview_2_patterns : List (List (List Char)) :=
  [pw ["second", "interview"], pw ["next", "round", "interview"],
   pw ["second", "round"], pw ["round", "2", "interview"],
   pw ["technical", "interview"], pw ["panel", "interview"]]

def interview_3_patterns : List (List (List Char)) :=
  [pw ["third", "interview"], pw ["final", "interview"],
   pw ["round", "3", "interview"], pw ["third", "round"],
   pw ["onsite", "interview"], pw ["on-site", "interview"]]

def interview_4_patterns : List (List (List Char)) :=
  [pw ["fourth", "interview"], pw ["round", "4", "interview"],
   pw ["fourth", "round"]]

def interview_5_patterns : List (List (List Char)) :=
  [pw ["fifth", "interview"], pw ["round", "5", "interview"],
   pw ["fifth", "round"]]

def offer_patterns : List (List (List Char)) :=
  [pw ["job", "offer"], pw ["offer", "position"],
   pw ["pleased", "to", "offer"], pw ["delighted", "to", "offer"],
   pw ["excited", "to", "offer"], pw ["offer", "employment"],
   pw ["offer", "you", "position"], pw ["extend", "offer"],
   pw ["making", "offer"]]

def accepted_patterns : List (List (List Char)) :=
  [pw ["accept", "offer"], pw ["accepted", "position"],
   pw ["excited", "to", "join"], pw ["looking", "forward", "to", "join"],
   pw ["accept", "job"], pw ["acceptance", "offer"]]

def rejected_patterns : List (List (List Char)) :=
  [pw ["we", "regret", "inform"], pw ["we", "regret", "to", "inform"],
   pw ["unfortunately", "not", "selected"],
   pw ["unfortunately", "decided", "not", "to", "proceed"],
   pw ["we", "decided", "not", "to", "proceed"],
   pw ["we", "decided", "not", "proceed"],
   pw ["we", "will", "not", "be", "moving", "forward"],
   pw ["we", "will", "not", "move", "forward"],
   pw ["we", "not", "move", "forward"],
   pw ["we", "decided", "pursue", "other"],
   pw ["decided", "not", "move", "forward"], pw ["other", "candidates"],
   pw ["better", "fit", "another"], pw ["not", "right", "fit"],
   pw ["not", "fit", "at", "this", "time"], pw ["we", "not", "advancing"],
   pw ["not", "selected", "position"], pw ["not", "selected", "candidate"],
   pw ["not", "proceed", "with", "your", "application"],
   pw ["not", "moving", "forward", "with", "application"]]

def withdrew_patterns : List (List (List Char)) :=
  [pw ["withdraw", "application"], pw ["application", "withdrawn"],
   pw ["no", "longer", "interested"], pw ["decided", "to", "withdraw"],
   pw ["withdrawing", "application"], pw ["i", "withdraw"],
   pw ["i", "no", "longer"], pw ["declined", "interview"],
   pw ["declined", "offer"], pw ["will", "not", "be", "moving", "forward"],
   pw ["not", "moving", "forward"], pw ["decline", "opportunity"],
   pw ["pass", "on", "opportunity"], pw ["not", "pursue"],
   pw ["decided", "not", "pursue"]]

/-- `self.job_keywords` in `EmailClassifier.__init__`. -/
def job_keyword_patterns : List (List (List Char)) :=
  [pw ["job"], pw ["application"], pw ["interview"], pw ["recruiter"],
   pw ["hiring"], pw ["position"], pw ["candidate"], pw ["opportunity"],
   pw ["apply"], pw ["career"], pw ["resume"], pw ["cv"], pw ["employment"],
   pw ["vacancy"], pw ["role"], pw ["application", "submitted"],
   pw ["thank", "for", "your", "application"], pw ["offer"],
   pw ["rejection"], pw ["withdraw", "application"], pw ["linkedin"],
   pw ["indeed"], pw ["glassdoor"], pw ["monster"], pw ["ziprecruiter"],
   pw ["ats"], pw ["applicant", "tracking"], pw ["job", "board"],
   pw ["vaga"], pw ["vagas"], pw ["emprego"], pw ["trabalho"],
   pw ["candidate-se"], pw ["aplicar"], pw ["engineer", "opportunity"],
   pw ["engineer", "position"], pw ["qa", "opportunity"],
   pw ["automation", "qa"]]

/-- `exclusion_patterns` local to `is_job_related`. -/
def exclusion_patterns : List (List (List Char)) :=
  [pw ["newsletter"], pw ["unsubscribe"], pw ["subscription"], pw ["promo"],
   pw ["promotion"], pw ["black", "friday"], pw ["cyber", "monday"],
   pw ["sale"], pw ["discount"], pw ["coupon"], pw ["receipt"],
   pw ["invoice"], pw ["payment", "received"], pw ["order", "confirmation"],
   pw ["flight", "confirmation"], pw ["hotel", "booking"],
   pw ["airbnb", "reservation"], pw ["shipping", "confirmation"],
   pw ["package", "delivered"], pw ["tracking", "number"],
   pw ["password", "reset"], pw ["verify", "email", "address"],
   pw ["account", "security"], pw ["instagram", "follow"],
   pw ["facebook", "friend"], pw ["twitter", "notification"]]

/-- `job_companies` local to `is_job_related` (plain substring checks against
the sender address). -/
def job_companies : List (List Char) :=
  (["linkedin", "indeed", "glassdoor", "monster", "ziprecruiter", "flexjobs",
    "recruiter", "hiring", "careers", "talent", "workday", "greenhouse",
    "lever", "smartrecruiters"] : List String).map String.toList

/-! ### `is_job_related` -/

/-- The combined text `f"{subject} {body[:2000]} {from_address}".lower()`. -/
def jobText (subject body from_address : List Char) : List Char :=
  lowerText (subject ++ (' ' :: (body.take 2000 ++ (' ' :: from_address))))

/-- Number of exclusion patterns matching the combined text. -/
def exclusionCount (subject body from_address : List Char) : Nat :=
  exclusion_patterns.countP (fun p => patSearch p (jobText subject body from_address))

/-- Number of job-keyword patterns matching the combined text. -/
def jobKeywordCount (subject body from_address : List Char) : Nat :=
  job_keyword_patterns.countP (fun p => patSearch p (jobText subject body from_address))

/-- Plain substring test (`needle in hay` in Python). -/
def subContains (needle hay : List Char) : Bool := patSearch [needle] hay

/-- `any(jc in from_address.lower() for jc in job_companies)`. -/
def companyMatch (from_address : List Char) : Bool :=
  job_companies.any (fun jc => subContains jc (lowerText from_address))

/-- `EmailClassifier.is_job_related`. -/
def is_job_related (subject body from_address : List Char) : Bool :=
  if exclusionCount subject body from_address ≥ 2 ∧
      jobKeywordCount subject body from_address = 0 then
    false
  else
    jobKeywordCount subject body from_address ≥ 1 || companyMatch from_address

/-! ### `classify_email` -/

/-- The combined text `f"{subject_lower} {from_lower} {body_preview}"` used for
scoring in `classify_email` (note: subject, then sender, then the first 5000
characters of the body; each component is the empty string when the Python
value is falsy). -/
def classifyText (subject body from_address : List Char) : List Char :=
  let body_preview := if body = [] then [] else lowerText (body.take 5000)
  let subject_lower := if subject = [] then [] else lowerText subject
  let from_lower := if from_address = [] then [] else lowerText from_address
  subject_lower ++ (' ' :: (from_lower ++ (' ' :: body_preview)))

/-- Per-category score, in tenths.  The source counts matching patterns with
an early exit at 3 (hence `min _ 3`), scores `min(1.0, 0.3 + 0.2*m)`, and
boosts by `+0.2` (capped at `1.0`) when some pattern also matches the subject
alone. -/
def catScore (pats : List (List (List Char))) (subject body from_address : List Char) : Nat :=
  let text := classifyText subject body from_address
  let subject_lower := if subject = [] then [] else lowerText subject
  let m := min (pats.countP (fun p => patSearch p text)) 3
  if m > 0 then
    let s := min 10 (3 + 2 * m)
    if subject_lower ≠ [] ∧ pats.any (fun p => patSearch p subject_lower) then
      min 10 (s + 2)
    else s
  else 0

/-- `EmailClassifier.classify_email` (confidence in tenths). -/
def classify_email (subject body from_address : List Char) : Status × Nat :=
  if is_job_related subject body from_address = false then
    (.not_job_related, 0)
  else
    if catScore rejected_patterns subject body from_address > 3 then
      (.rejected, catScore rejected_patterns subject body from_address)
    else if catScore accepted_patterns subject body from_address > 5 then
      (.accepted, catScore accepted_patterns subject body from_address)
    else if catScore offer_patterns subject body from_address > 5 then
      (.offer, catScore offer_patterns subject body from_address)
    else if catScore withdrew_patterns subject body from_address > 5 then
      (.withdrew, catScore withdrew_patterns subject body from_address)
    else if catScore interview_5_patterns subject body from_address > 4 then
      (.interview 5, catScore interview_5_patterns subject body from_address)
    else if catScore interview_4_patterns subject body from_address > 4 then
      (.interview 4, catScore interview_4_patterns subject body from_address)
    else if catScore interview_3_patterns subject body from_address > 4 then
      (.interview 3, catScore interview_3_patterns subject body from_address)
    else if catScore interview_2_patterns subject body from_address > 4 then
      (.interview 2, catScore interview_2_patterns subject body from_address)
    else if catScore interview_1_patterns subject body from_address > 4 then
      (.interview 1, catScore interview_1_patterns subject body from_address)
    else if catScore confirmation_patterns subject body from_address > 4 then
      (.confirmation, catScore confirmation_patterns subject body from_address)
    else if catScore applied_patterns subject body from_address > 1 then
      (.applied, max (catScore applied_patterns subject body from_address) 3)
    else
      (.no_reply, 0)

/-! ### Classifier lemmas -/

theorem catScore_le_ten (pats : List (List (List Char))) (s b f : List Char) :
    catScore pats s b f ≤ 10 := by
  unfold catScore
  dsimp only
  split_ifs <;> simp [Nat.min_le_left]

theorem catScore_ge_five_of_match {pats : List (List (List Char))} {p : List (List Char)}
    (hp : p ∈ pats) {s b f : List Char}
    (hm : patSearch p (classifyText s b f) = true) :
    5 ≤ catScore pats s b f := by
  have hcount : 0 < pats.countP (fun q => patSearch q (classifyText s b f)) :=
    List.countP_pos_iff.mpr ⟨p, hp, hm⟩
  unfold catScore
  dsimp only
  split_ifs with h1 h2 <;> omega

/-- The scoring pattern list owned by each category (`STATUS_KEYWORDS`);
categories without patterns own the empty list. -/
def patternsOf : Status → List (List (List Char))
  | .applied => applied_patterns
  | .confirmation => confirmation_patterns
  | .interview 1 => interview_1_patterns
  | .interview 2 => interview_2_patterns
  | .interview 3 => interview_3_patterns
  | .interview 4 => interview_4_patterns
  | .interview 5 => interview_5_patterns
  | .offer => offer_patterns
  | .accepted => accepted_patterns
  | .rejected => rejected_patterns
  | .withdrew => withdrew_patterns
  | _ => []

/-- The resolution cascade exactly as the spec words it ("first satisfied
threshold wins"): rejected (score > 0.3), accepted (> 0.5), offer (> 0.5),
withdrew (> 0.5), interview_5 down to interview_1 (> 0.4), confirmation
(> 0.4), applied (> 0.1, confidence floored at 0.3), else no_reply with 0.0 —
thresholds in tenths. -/
def claimResolve (sc : Status → Nat) : Status × Nat :=
  if sc .rejected > 3 then (.rejected, sc .rejected)
  else if sc .accepted > 5 then (.accepted, sc .accepted)
  else if sc .offer > 5 then (.offer, sc .offer)
  else if sc .withdrew > 5 then (.withdrew, sc .withdrew)
  else if sc (.interview 5) > 4 then (.interview 5, sc (.interview 5))
  else if sc (.interview 4) > 4 then (.interview 4, sc (.interview 4))
  else if sc (.interview 3) > 4 then (.interview 3, sc (.interview 3))
  else if sc (.interview 2) > 4 then (.interview 2, sc (.interview 2))
  else if sc (.interview 1) > 4 then (.interview 1, sc (.interview 1))
  else if sc .confirmation > 4 then (.confirmation, sc .confirmation)
  else if sc .applied > 1 then (.applied, max (sc .applied) 3)
  else (.no_reply, 0)

theorem classify_email_eq_resolve (s b f : List Char)
    (h : is_job_related s b f = true) :
    classify_email s b f = claimResolve (fun st => catScore (patternsOf st) s b f) := by
  simp only [classify_email, claimResolve, patternsOf, h]
  norm_num

/-- C2 (confirmed): for every input passing the job-related gate,
`classify_email` returns exactly the first category in the fixed order whose
score exceeds its threshold, and any input whose combined text matches a
rejection pattern (in particular one matching both a rejection and an offer
phrase) classifies as `rejected`. -/
theorem classify_email_priority_cascade (s b f : List Char)
    (h : is_job_related s b f = true) :
    classify_email s b f = claimResolve (fun st => catScore (patternsOf st) s b f) ∧
      ∀ p ∈ rejected_patterns, patSearch p (classifyText s b f) = true →
        (classify_email s b f).1 = .rejected := by
  constructor
  · exact classify_email_eq_resolve s b f h
  · intro p hp hm
    have h5 : 5 ≤ catScore rejected_patterns s b f :=
      catScore_ge_five_of_match hp hm
    have h3 : 3 < catScore rejected_patterns s b f := by omega
    simp only [classify_email, h]
    norm_num
    rw [if_pos h3]

/-- Witness for C2 at a concrete input whose body contains a rejection
phrase. -/
theorem classify_email_priority_cascade_witness :
    is_job_related ("job".toList) ("we regret to inform you".toList) ("a@x.com".toList) = true ∧
      classify_email ("job".toList) ("we regret to inform you".toList) ("a@x.com".toList) =
        claimResolve (fun st =>
          catScore (patternsOf st) ("job".toList) ("we regret to inform you".toList) ("a@x.com".toList)) :=
  ⟨by decide,
   (classify_email_priority_cascade ("job".toList) ("we regret to inform you".toList)
     ("a@x.com".toList) (by decide)).1⟩

/-- Confidence bounds for the resolution cascade, with bounded scores. -/
theorem claimResolve_confidence (sc : Status → Nat) (hb : ∀ st, sc st ≤ 10) :
    (claimResolve sc).2 ≤ 10 ∧
      ((claimResolve sc).2 = 0 ↔
        (claimResolve sc).1 = .no_reply ∨ (claimResolve sc).1 = .not_job_related) := by
  have h1 := hb .rejected
  have h2 := hb .accepted
  have h3 := hb .offer
  have h4 := hb .withdrew
  have h5 := hb (.interview 5)
  have h6 := hb (.interview 4)
  have h7 := hb (.interview 3)
  have h8 := hb (.interview 2)
  have h9 := hb (.interview 1)
  have h10 := hb .confirmation
  have h11 := hb .applied
  unfold claimResolve
  split_ifs with g1 g2 g3 g4 g5 g6 g7 g8 g9 g10 g11 <;>
    first
      | exact ⟨by omega, ⟨fun _ => Or.inl rfl, fun _ => rfl⟩⟩
      | exact ⟨by omega, ⟨fun hz => absurd hz (by omega), fun hor => by
          rcases hor with hcon | hcon <;> exact absurd hcon (by decide)⟩⟩

/-- C5 (confirmed): the confidence is always within [0, 1] (here: tenths in
[0, 10]) and is 0 exactly when the status is `no_reply` or
`not_job_related`. -/
theorem classify_email_confidence_range (s b f : List Char) :
    (classify_email s b f).2 ≤ 10 ∧
      ((classify_email s b f).2 = 0 ↔
        (classify_email s b f).1 = .no_reply ∨
          (classify_email s b f).1 = .not_job_related) := by
  by_cases hgate : is_job_related s b f = false
  · simp [classify_email, hgate]
  · have hgate' : is_job_related s b f = true := by
      cases hb : is_job_related s b f
      · exact absurd hb hgate
      · rfl
    rw [classify_email_eq_resolve s b f hgate']
    exact claimResolve_confidence _ (fun st => catScore_le_ten (patternsOf st) s b f)

/-- C6 (amended, proved): the gate returns `false` exactly when zero
job-keyword patterns match and, in addition, either at least two exclusion
patterns match or the sender address contains no known job-platform name. -/
theorem is_job_related_false_iff (s b f : List Char) :
    is_job_related s b f = false ↔
      jobKeywordCount s b f = 0 ∧
        (2 ≤ exclusionCount s b f ∨ companyMatch f = false) := by
  unfold is_job_related
  split_ifs with h
  · simp only [eq_self_iff_true, true_iff]
    exact ⟨h.2, Or.inl h.1⟩
  · rw [not_and_or] at h
    constructor
    · intro hfalse
      simp only [Bool.or_eq_false_iff, decide_eq_false_iff_not, not_le] at hfalse
      exact ⟨by omega, Or.inr hfalse.2⟩
    · rintro ⟨hkw, hrest⟩
      rcases h with h | h
      · rcases hrest with hexcl | hcomp
        · exact absurd hexcl h
        · simp [hkw, hcomp]
      · exact absurd hkw h

/-- C6 counterexample: an input the gate rejects although zero (hence fewer
than two) exclusion patterns match — refuting "rejects only when at least 2
exclusion patterns match". -/
theorem is_job_related_gate_cex :
    is_job_related ("hello".toList) ("world".toList) ("a@b.com".toList) = false ∧
      exclusionCount ("hello".toList) ("world".toList) ("a@b.com".toList) = 0 := by
  decide

/-! ### Batch classification (`classify_emails`)

The per-record `try` block of `classify_emails` runs `classify_email` and
`extract_company_name`; a raised exception lands in the `except` branch.  The
fallible block is modelled as an `attempt` oracle returning `Option`
(`none` = the iteration raised), indexed by the iteration number so that a
failure can be injected into a single record of a batch. -/

structure RawEmail where
  subject : List Char
  body : List Char
  sender : List Char
deriving DecidableEq, Repr

/-- The string `"Unknown"`, the default company. -/
def unknownCompany : List Char := "Unknown".toList

/-- A classified email: the raw record plus status, confidence (tenths) and
company. -/
structure Classified where
  raw : RawEmail
  status : Status
  confidence : Nat
  company : List Char
deriving DecidableEq, Repr

/-- One iteration of the batch loop: on success keep the classification
result (company defaulted to `"Unknown"` when extraction returned `None`),
on failure emit the defaulted record. -/
def applyAttempt (attempt : Nat → RawEmail → Option (Status × Nat × Option (List Char)))
    (i : Nat) (e : RawEmail) : Classified :=
  match attempt i e with
  | some (st, conf, comp) => ⟨e, st, conf, comp.getD unknownCompany⟩
  | none => ⟨e, .no_reply, 0, unknownCompany⟩

/-- The batch loop from iteration `i` on. -/
def classify_emails_from (attempt : Nat → RawEmail → Option (Status × Nat × Option (List Char))) :
    Nat → List RawEmail → List Classified
  | _, [] => []
  | i, e :: es => applyAttempt attempt i e :: classify_emails_from attempt (i + 1) es

/-- `EmailClassifier.classify_emails`. -/
def classify_emails (attempt : Nat → RawEmail → Option (Status × Nat × Option (List Char)))
    (emails : List RawEmail) : List Classified :=
  classify_emails_from attempt 0 emails

theorem classify_emails_from_length (attempt) (i : Nat) (es : List RawEmail) :
    (classify_emails_from attempt i es).length = es.length := by
  induction es generalizing i with
  | nil => rfl
  | cons e es ih => simp [classify_emails_from, ih]

theorem classify_emails_from_get? (attempt) (k : Nat) (es : List RawEmail) (i : Nat) :
    (classify_emails_from attempt k es)[i]? = (es[i]?).map (applyAttempt attempt (k + i)) := by
  induction es generalizing k i with
  | nil => simp [classify_emails_from]
  | cons e es ih =>
    cases i with
    | zero => simp [classify_emails_from]
    | succ n =>
      simp only [classify_emails_from, List.getElem?_cons_succ]
      rw [ih (k + 1) n]
      have harith : k + 1 + n = k + (n + 1) := by omega
      rw [harith]

/-- C9 (amended, proved): the batch never drops or aborts — one output per
input; an iteration whose classification fails yields exactly the defaulted
record `(no_reply, 0.0, "Unknown")`; and replacing the classification outcome
of one iteration (e.g. injecting a failure) leaves the output for every other
record unchanged. -/
theorem classify_emails_batch_isolation
    (attempt attempt' : Nat → RawEmail → Option (Status × Nat × Option (List Char)))
    (emails : List RawEmail) :
    (classify_emails attempt emails).length = emails.length ∧
      (∀ i e, emails[i]? = some e → attempt i e = none →
        (classify_emails attempt emails)[i]? =
          some ⟨e, .no_reply, 0, unknownCompany⟩) ∧
      (∀ i : Nat, (∀ j, j ≠ i → attempt' j = attempt j) →
        ∀ j, j ≠ i →
          (classify_emails attempt' emails)[j]? = (classify_emails attempt emails)[j]?) := by
  refine ⟨classify_emails_from_length attempt 0 emails, ?_, ?_⟩
  · intro i e hget hfail
    rw [classify_emails, classify_emails_from_get? attempt 0 emails i, hget]
    simp [applyAttempt, hfail]
  · intro i hagree j hj
    rw [classify_emails, classify_emails, classify_emails_from_get?,
      classify_emails_from_get?]
    cases hget : emails[j]? with
    | none => simp
    | some e =>
      have hx : attempt' j = attempt j := hagree j hj
      simp [applyAttempt, hx]

/-- Witness for C9: a two-record batch where the first iteration fails; the
failed record comes out defaulted and the second record is untouched. -/
theorem classify_emails_batch_isolation_witness :
    (([⟨"a".toList, "b".toList, "c".toList⟩,
       ⟨"d".toList, "e".toList, "g".toList⟩] : List RawEmail)[0]? =
        some ⟨"a".toList, "b".toList, "c".toList⟩) ∧
      (classify_emails (fun i _ => if i = 0 then none else some (.applied, 3, none))
          [⟨"a".toList, "b".toList, "c".toList⟩, ⟨"d".toList, "e".toList, "g".toList⟩])[0]? =
        some ⟨⟨"a".toList, "b".toList, "c".toList⟩, .no_reply, 0, unknownCompany⟩ :=
  ⟨rfl,
   (classify_emails_batch_isolation
      (fun i _ => if i = 0 then none else some (.applied, 3, none))
      (fun i _ => if i = 0 then none else some (.applied, 3, none))
      [⟨"a".toList, "b".toList, "c".toList⟩, ⟨"d".toList, "e".toList, "g".toList⟩]).2.1
    0 ⟨"a".toList, "b".toList, "c".toList⟩ rfl rfl⟩

/-- C9 counterexample to the reporting clause: a batch run in which the only
record fails is indistinguishable, in everything returned to the caller, from
a run in which that record genuinely classified as the default — the
exception is swallowed silently, so no count or log of the failure is
reported to the caller. -/
theorem classify_emails_failure_not_reported :
    classify_emails (fun _ _ => none) [⟨"a".toList, "b".toList, "c".toList⟩] =
      classify_emails (fun _ _ => some (.no_reply, 0, none))
        [⟨"a".toList, "b".toList, "c".toList⟩] := rfl

/-! ### Per-company flow (`AnalyticsGenerator._get_company_flow`)

A classified email record enters the analytics stage as its `company` string
(`"Unknown"` when extraction failed) and its `status`. -/

structure Email where
  company : List Char
  status : Status
deriving DecidableEq, Repr

/-- The per-company accumulator dict initialised at first sight of a
company. -/
structure Flow where
  highest_interview : Nat
  final_status : Status
  has_offer : Bool
  has_accepted : Bool
  has_rejected : Bool
  has_withdrew : Bool
deriving DecidableEq, Repr

def initFlow : Flow := ⟨0, .no_reply, false, false, false, false⟩

instance : Inhabited Flow := ⟨initFlow⟩

/-- One loop iteration of `_get_company_flow` on one company's accumulator:
first the highest-interview update, then the `if/elif` chain tracking the
final status (note that flags are set only when the chain branch fires, and
the interview branch stamps the `highest_interview` value current at that
moment). -/
def updateFlow (flow : Flow) (status : Status) : Flow :=
  let flow :=
    match status with
    | .interview k => { flow with highest_interview := max flow.highest_interview k }
    | _ => flow
  match status with
  | .accepted => { flow with has_accepted := true, final_status := .accepted }
  | .offer =>
      if flow.final_status ≠ .accepted then
        { flow with has_offer := true, final_status := .offer }
      else flow
  | .withdrew =>
      if flow.final_status ≠ .accepted ∧ flow.final_status ≠ .offer then
        { flow with has_withdrew := true, final_status := .withdrew }
      else flow
  | .rejected =>
      if flow.final_status ≠ .accepted ∧ flow.final_status ≠ .offer ∧
          flow.final_status ≠ .withdrew then
        { flow with has_rejected := true, final_status := .rejected }
      else flow
  | .interview _ =>
      if flow.final_status = .no_reply then
        { flow with final_status := .interview flow.highest_interview }
      else flow
  | _ => flow

/-- The accumulator dict keyed by company (Python dict = association list in
insertion order). -/
def updateFlows : List (List Char × Flow) → List Char → Status → List (List Char × Flow)
  | [], c, s => [(c, updateFlow initFlow s)]
  | (c', fl) :: rest, c, s =>
      if c' = c then (c', updateFlow fl s) :: rest
      else (c', fl) :: updateFlows rest c s

/-- `AnalyticsGenerator._get_company_flow`. -/
def get_company_flow (emails : List Email) : List (List Char × Flow) :=
  emails.foldl (fun acc e => updateFlows acc e.company e.status) []

/-- The accumulator resulting from one company's email statuses, in order. -/
def companyFold (l : List Status) : Flow := l.foldl updateFlow initFlow

/-- The stage of the first interview-status email in the list, if any. -/
def firstInterview : List Status → Option Nat
  | [] => none
  | .interview k :: _ => some k
  | _ :: rest => firstInterview rest

/-- Modelled from the claim wording for C3: terminal priority
accepted → offer → withdrew → rejected → synthetic
`interview_{highestInterviewStage}` when `highestInterviewStage > 0` →
`no_reply`. -/
def claimTerminal (l : List Status) : Status :=
  if Status.accepted ∈ l then .accepted
  else if Status.offer ∈ l then .offer
  else if Status.withdrew ∈ l then .withdrew
  else if Status.rejected ∈ l then .rejected
  else if 0 < (companyFold l).highest_interview then
    .interview (companyFold l).highest_interview
  else .no_reply

/-- The cascade the code actually implements for `final_status`: as the claim
says for the four outcome categories, but the synthetic interview terminal
carries the stage of the company's first interview email, not the highest
stage seen. -/
def amendedTerminal (l : List Status) : Status :=
  if Status.accepted ∈ l then .accepted
  else if Status.offer ∈ l then .offer
  else if Status.withdrew ∈ l then .withdrew
  else if Status.rejected ∈ l then .rejected
  else
    match firstInterview l with
    | some k => .interview k
    | none => .no_reply

theorem amended_eq_accepted_iff (l : List Status) :
    amendedTerminal l = .accepted ↔ Status.accepted ∈ l := by
  unfold amendedTerminal
  split_ifs with h1 h2 h3 h4 <;> try simp_all
  cases hfi : firstInterview l <;> simp_all

theorem amended_eq_offer_iff (l : List Status) :
    amendedTerminal l = .offer ↔ Status.accepted ∉ l ∧ Status.offer ∈ l := by
  unfold amendedTerminal
  split_ifs with h1 h2 h3 h4 <;> try simp_all
  cases hfi : firstInterview l <;> simp_all

theorem amended_eq_withdrew_iff (l : List Status) :
    amendedTerminal l = .withdrew ↔
      Status.accepted ∉ l ∧ Status.offer ∉ l ∧ Status.withdrew ∈ l := by
  unfold amendedTerminal
  split_ifs with h1 h2 h3 h4 <;> try simp_all
  cases hfi : firstInterview l <;> simp_all

theorem amended_eq_rejected_iff (l : List Status) :
    amendedTerminal l = .rejected ↔
      Status.accepted ∉ l ∧ Status.offer ∉ l ∧ Status.withdrew ∉ l ∧
        Status.rejected ∈ l := by
  unfold amendedTerminal
  split_ifs with h1 h2 h3 h4 <;> try simp_all
  cases hfi : firstInterview l <;> simp_all

theorem firstInterview_append (xs : List Status) (x : Status) :
    firstInterview (xs ++ [x]) =
      match firstInterview xs with
      | some k => some k
      | none =>
          match x with
          | .interview k => some k
          | _ => none := by
  induction xs with
  | nil => cases x <;> rfl
  | cons y ys ih => cases y <;> simp [firstInterview, ih]

/-- Structure of `final_status` after folding a company's statuses: the
cascade `amendedTerminal`, together with the invariant that a company with no
interview email has `highest_interview = 0`. -/
theorem companyFold_final_spec (l : List Status) :
    (companyFold l).final_status = amendedTerminal l ∧
      (firstInterview l = none → (companyFold l).highest_interview = 0) := by
  induction l using List.reverseRecOn with
  | nil => exact ⟨rfl, fun _ => rfl⟩
  | append_singleton xs x ih =>
    obtain ⟨ih1, ih2⟩ := ih
    have hfold : companyFold (xs ++ [x]) = updateFlow (companyFold xs) x := by
      simp [companyFold]
    constructor
    · rw [hfold]
      cases x with
      | accepted => simp [updateFlow, amendedTerminal, List.mem_append]
      | offer =>
        by_cases hacc : Status.accepted ∈ xs
        · have hfin : (companyFold xs).final_status = .accepted := by
            rw [ih1]; exact (amended_eq_accepted_iff xs).mpr hacc
          simp [updateFlow, hfin, amendedTerminal, List.mem_append, hacc]
        · have hfin : (companyFold xs).final_status ≠ .accepted := by
            rw [ih1]; intro hcon; exact hacc ((amended_eq_accepted_iff xs).mp hcon)
          simp [updateFlow, hfin, amendedTerminal, List.mem_append, hacc]
      | withdrew =>
        by_cases hacc : Status.accepted ∈ xs
        · have hfin : (companyFold xs).final_status = .accepted := by
            rw [ih1]; exact (amended_eq_accepted_iff xs).mpr hacc
          simp [updateFlow, hfin, amendedTerminal, List.mem_append, hacc]
        · by_cases hoff : Status.offer ∈ xs
          · have hfin : (companyFold xs).final_status = .offer := by
              rw [ih1]; exact (amended_eq_offer_iff xs).mpr ⟨hacc, hoff⟩
            simp [updateFlow, hfin, amendedTerminal, List.mem_append, hacc, hoff]
          · have hfa : (companyFold xs).final_status ≠ .accepted := by
              rw [ih1]; intro hcon; exact hacc ((amended_eq_accepted_iff xs).mp hcon)
            have hfo : (companyFold xs).final_status ≠ .offer := by
              rw [ih1]; intro hcon
              exact hoff ((amended_eq_offer_iff xs).mp hcon).2
            simp [updateFlow, hfa, hfo, amendedTerminal, List.mem_append, hacc, hoff]
      | rejected =>
        by_cases hacc : Status.accepted ∈ xs
        · have hfin : (companyFold xs).final_status = .accepted := by
            rw [ih1]; exact (amended_eq_accepted_iff xs).mpr hacc
          simp [updateFlow, hfin, amendedTerminal, List.mem_append, hacc]
        · by_cases hoff : Status.offer ∈ xs
          · have hfin : (companyFold xs).final_status = .offer := by
              rw [ih1]; exact (amended_eq_offer_iff xs).mpr ⟨hacc, hoff⟩
            simp [updateFlow, hfin, amendedTerminal, List.mem_append, hacc, hoff]
          · by_cases hwit : Status.withdrew ∈ xs
            · have hfin : (companyFold xs).final_status = .withdrew := by
                rw [ih1]; exact (amended_eq_withdrew_iff xs).mpr ⟨hacc, hoff, hwit⟩
              simp [updateFlow, hfin, amendedTerminal, List.mem_append, hacc, hoff, hwit]
            · have hfa : (companyFold xs).final_status ≠ .accepted := by
                rw [ih1]; intro hcon; exact hacc ((amended_eq_accepted_iff xs).mp hcon)
              have hfo : (companyFold xs).final_status ≠ .offer := by
                rw [ih1]; intro hcon
                exact hoff ((amended_eq_offer_iff xs).mp hcon).2
              have hfw : (companyFold xs).final_status ≠ .withdrew := by
                rw [ih1]; intro hcon
                exact hwit ((amended_eq_withdrew_iff xs).mp hcon).2.2
              simp [updateFlow, hfa, hfo, hfw, amendedTerminal, List.mem_append,
                hacc, hoff, hwit]
      | interview k =>
        by_cases hacc : Status.accepted ∈ xs
        · have hfin : (companyFold xs).final_status = .accepted := by
            rw [ih1]; exact (amended_eq_accepted_iff xs).mpr hacc
          simp [updateFlow, hfin, amendedTerminal, List.mem_append, hacc]
        · by_cases hoff : Status.offer ∈ xs
          · have hfin : (companyFold xs).final_status = .offer := by
              rw [ih1]; exact (amended_eq_offer_iff xs).mpr ⟨hacc, hoff⟩
            simp [updateFlow, hfin, amendedTerminal, List.mem_append, hacc, hoff]
          · by_cases hwit : Status.withdrew ∈ xs
            · have hfin : (companyFold xs).final_status = .withdrew := by
                rw [ih1]; exact (amended_eq_withdrew_iff xs).mpr ⟨hacc, hoff, hwit⟩
              simp [updateFlow, hfin, amendedTerminal, List.mem_append, hacc, hoff, hwit]
            · by_cases hrej : Status.rejected ∈ xs
              · have hfin : (companyFold xs).final_status = .rejected := by
                  rw [ih1]
                  exact (amended_eq_rejected_iff xs).mpr ⟨hacc, hoff, hwit, hrej⟩
                simp [updateFlow, hfin, amendedTerminal, List.mem_append,
                  hacc, hoff, hwit, hrej]
              · cases hfi : firstInterview xs with
                | some j =>
                  have hfin : (companyFold xs).final_status = .interview j := by
                    rw [ih1]
                    unfold amendedTerminal
                    simp [hacc, hoff, hwit, hrej, hfi]
                  have hamend :
                      amendedTerminal (xs ++ [Status.interview k]) = .interview j := by
                    unfold amendedTerminal
                    rw [firstInterview_append, hfi]
                    simp [List.mem_append, hacc, hoff, hwit, hrej]
                  simp [updateFlow, hfin, hamend]
                | none =>
                  have hfin : (companyFold xs).final_status = .no_reply := by
                    rw [ih1]
                    unfold amendedTerminal
                    simp [hacc, hoff, hwit, hrej, hfi]
                  have hh : (companyFold xs).highest_interview = 0 := ih2 hfi
                  have hamend :
                      amendedTerminal (xs ++ [Status.interview k]) = .interview k := by
                    unfold amendedTerminal
                    rw [firstInterview_append, hfi]
                    simp [List.mem_append, hacc, hoff, hwit, hrej]
                  simp [updateFlow, hfin, hh, hamend]
      | applied =>
        have hA : amendedTerminal (xs ++ [Status.applied]) = amendedTerminal xs := by
          unfold amendedTerminal
          rw [firstInterview_append]
          cases hfi : firstInterview xs <;> simp [List.mem_append]
        rw [hA]
        simpa [updateFlow] using ih1
      | confirmation =>
        have hA : amendedTerminal (xs ++ [Status.confirmation]) = amendedTerminal xs := by
          unfold amendedTerminal
          rw [firstInterview_append]
          cases hfi : firstInterview xs <;> simp [List.mem_append]
        rw [hA]
        simpa [updateFlow] using ih1
      | no_reply =>
        have hA : amendedTerminal (xs ++ [Status.no_reply]) = amendedTerminal xs := by
          unfold amendedTerminal
          rw [firstInterview_append]
          cases hfi : firstInterview xs <;> simp [List.mem_append]
        rw [hA]
        simpa [updateFlow] using ih1
      | not_job_related =>
        have hA : amendedTerminal (xs ++ [Status.not_job_related]) = amendedTerminal xs := by
          unfold amendedTerminal
          rw [firstInterview_append]
          cases hfi : firstInterview xs <;> simp [List.mem_append]
        rw [hA]
        simpa [updateFlow] using ih1
    · intro hnone
      rw [firstInterview_append] at hnone
      rw [hfold]
      cases hfi : firstInterview xs with
      | some j => rw [hfi] at hnone; exact absurd hnone (by simp)
      | none =>
        rw [hfi] at hnone
        have hh : (companyFold xs).highest_interview = 0 := ih2 hfi
        cases x <;> simp_all [updateFlow] <;> split_ifs <;> simp_all

/-- C3 (amended, proved): a company's stored terminal status follows the
priority accepted → offer (if not accepted) → withdrew (if neither) →
rejected (if none of the above) → synthetic `interview_k` where `k` is the
stage of the company's *first* interview email → `no_reply`. -/
theorem company_final_status_cascade (l : List Status) :
    (companyFold l).final_status = amendedTerminal l :=
  (companyFold_final_spec l).1

/-- C3 counterexample: for emails `[interview_1, interview_3]` the code stores
terminal `interview_1` although `highestInterviewStage = 3`, so the claimed
synthetic `interview_{highestInterviewStage}` terminal is wrong. -/
theorem company_final_status_cex :
    (companyFold [Status.interview 1, Status.interview 3]).final_status = .interview 1 ∧
      (companyFold [Status.interview 1, Status.interview 3]).highest_interview = 3 ∧
      claimTerminal [Status.interview 1, Status.interview 3] = .interview 3 ∧
      (companyFold [Status.interview 1, Status.interview 3]).final_status ≠
        claimTerminal [Status.interview 1, Status.interview 3] := by
  decide

/-- The `highest_interview` accumulator viewed on its own: a max-fold over
interview stages. -/
def stageMax (h : Nat) (s : Status) : Nat :=
  match s with
  | .interview k => max h k
  | _ => h

theorem companyFold_highest_foldl (l : List Status) :
    (companyFold l).highest_interview = l.foldl stageMax 0 := by
  suffices h : ∀ (l : List Status) (F : Flow),
      (l.foldl updateFlow F).highest_interview = l.foldl stageMax F.highest_interview from
    h l initFlow
  intro l
  induction l with
  | nil => intro F; rfl
  | cons x xs ih =>
    intro F
    rw [List.foldl_cons, List.foldl_cons, ih]
    congr 1
    cases x <;> simp [updateFlow, stageMax] <;> split_ifs <;> rfl

theorem foldl_stageMax_perm {l₁ l₂ : List Status} (hp : l₁.Perm l₂) :
    ∀ h0 : Nat, l₁.foldl stageMax h0 = l₂.foldl stageMax h0 := by
  induction hp with
  | nil => intro h0; rfl
  | cons x p ih => intro h0; rw [List.foldl_cons, List.foldl_cons]; exact ih _
  | swap x y l =>
    intro h0
    rw [List.foldl_cons, List.foldl_cons, List.foldl_cons, List.foldl_cons]
    congr 1
    cases x <;> cases y <;> simp [stageMax] <;> omega
  | trans p q ih1 ih2 => intro h0; rw [ih1, ih2]

/-- C4 (amended, proved): `highestInterviewStage` is an order-independent max
over the company's emails — permuting the emails leaves it unchanged.  (The
boolean flags and the stored final status are *not* order-independent; see
the counterexample.) -/
theorem company_flow_highest_perm (l₁ l₂ : List Status) (hp : l₁.Perm l₂) :
    (companyFold l₁).highest_interview = (companyFold l₂).highest_interview := by
  rw [companyFold_highest_foldl, companyFold_highest_foldl]
  exact foldl_stageMax_perm hp 0

/-- Witness for C4 at a concrete permutation pair. -/
theorem company_flow_highest_perm_witness :
    List.Perm [Status.interview 1, Status.interview 3]
        [Status.interview 3, Status.interview 1] ∧
      (companyFold [Status.interview 1, Status.interview 3]).highest_interview =
        (companyFold [Status.interview 3, Status.interview 1]).highest_interview :=
  ⟨List.Perm.swap _ _ _, company_flow_highest_perm _ _ (List.Perm.swap _ _ _)⟩

/-- C4 counterexample: swapping two emails of one company changes the
resulting `CompanyFlow` record (for `[offer, accepted]` versus
`[accepted, offer]` the `has_offer` flag differs), refuting full
order-independence of the per-company reduction. -/
theorem company_flow_perm_cex :
    List.Perm [Status.offer, Status.accepted] [Status.accepted, Status.offer] ∧
      companyFold [Status.offer, Status.accepted] ≠
        companyFold [Status.accepted, Status.offer] :=
  ⟨List.Perm.swap _ _ _, by decide⟩

/-! ### Flow counts (`generate_sankey_diagram`, bucketing section)

The three stage-keyed Python dicts count companies per interview stage; a
dict `stage -> count` built by repeated `+= 1` is exactly a tally, modelled
here as the multiset (list) of stages — the dict value at `s` is
`List.count s`, the key set is the set of elements, and the sum of the dict
values is the list length. -/

structure FlowCounts where
  rejected_from_interview : List Nat
  rejected_direct : Nat
  withdrew_from_interview : List Nat
  withdrew_direct : Nat
  ghosted_from_interview : List Nat
  ghosted_direct : Nat
  offer : Nat
  accepted : Nat
  declined_offer : Nat
deriving DecidableEq, Repr

def initCounts : FlowCounts := ⟨[], 0, [], 0, [], 0, 0, 0, 0⟩

/-- The `if/elif` chain of `generate_sankey_diagram` placing one company into
exactly one outcome bucket. -/
def bucketFlow (fc : FlowCounts) (fl : Flow) : FlowCounts :=
  if fl.has_accepted then { fc with accepted := fc.accepted + 1 }
  else if fl.has_offer then
    if fl.has_withdrew || !fl.has_accepted then
      { fc with declined_offer := fc.declined_offer + 1 }
    else
      { fc with offer := fc.offer + 1 }
  else if fl.has_withdrew then
    if 0 < fl.highest_interview then
      { fc with withdrew_from_interview := fl.highest_interview :: fc.withdrew_from_interview }
    else
      { fc with withdrew_direct := fc.withdrew_direct + 1 }
  else if fl.has_rejected then
    if 0 < fl.highest_interview then
      { fc with rejected_from_interview := fl.highest_interview :: fc.rejected_from_interview }
    else
      { fc with rejected_direct := fc.rejected_direct + 1 }
  else if 0 < fl.highest_interview then
    { fc with ghosted_from_interview := fl.highest_interview :: fc.ghosted_from_interview }
  else
    { fc with ghosted_direct := fc.ghosted_direct + 1 }

/-- The bucketing loop over `company_flows.items()`, skipping `"Unknown"`. -/
def flow_counts (flows : List (List Char × Flow)) : FlowCounts :=
  flows.foldl (fun fc p => if p.1 = unknownCompany then fc else bucketFlow fc p.2) initCounts

/-- Aggregate outcome count directly observed at stage `s`. -/
def aggAt (fc : FlowCounts) (s : Nat) : Nat :=
  fc.rejected_from_interview.count s + fc.withdrew_from_interview.count s +
    fc.ghosted_from_interview.count s

def insertSorted (n : Nat) : List Nat → List Nat
  | [] => [n]
  | m :: rest => if n ≤ m then n :: m :: rest else m :: insertSorted n rest

/-- `sorted(set(..))` on a list of naturals. -/
def sortedDedup (l : List Nat) : List Nat := l.dedup.foldr insertSorted []

/-- `existing_stages`: the sorted key set of the three stage dicts. -/
def existingStages (fc : FlowCounts) : List Nat :=
  sortedDedup (fc.rejected_from_interview ++ fc.withdrew_from_interview ++
    fc.ghosted_from_interview)

/-- `max(existing_stages)` (only consulted when the list is nonempty). -/
def maxStage (fc : FlowCounts) : Nat := ((existingStages fc).max?).getD 0

/-- `sorted_stages`: every stage from 1 up to the maximum bucketed stage
(the filter keeps `i` exactly when `i ∈ existing_stages or i < max_stage`,
which is all of `1..max_stage`). -/
def sortedStages (fc : FlowCounts) : List Nat :=
  if existingStages fc = [] then []
  else
    (List.range' 1 (maxStage fc)).filter
      (fun i => decide (i ∈ existingStages fc ∨ i < maxStage fc))

/-- The displayed "at-stage" count of a stage node: its own aggregate
outcome count, or — for an inferred intermediate stage with zero direct
data — the aggregate of the nearest following stage with data
(`min(next_stages)`). -/
def stageDisplay (fc : FlowCounts) (stage_num : Nat) : Nat :=
  let total0 := aggAt fc stage_num
  if existingStages fc ≠ [] ∧ total0 = 0 ∧ stage_num < maxStage fc then
    match ((existingStages fc).filter (fun s => decide (stage_num < s))).min? with
    | some next_stage => aggAt fc next_stage
    | none => total0
  else total0

/-! ### Graph model (`FlowGraph`)

Node labels embed their running count (`"Rejected (12)"`); a node is
modelled as its base label (`NodeName`) paired with the embedded count.
`NodeName.stage 1` renders as `"First Interview"`, `NodeName.stage n` as
`"Interview n"` — distinct display strings for distinct names either way. -/

inductive NodeName where
  | applied
  | recruiter
  | total
  | rejected
  | withdrew
  | ghosted
  | stage (n : Nat)
  | offer
  | accepted
  | declined
deriving DecidableEq, Repr

/-- The terminal sink categories named by the spec: Rejected, Withdrew,
Ghosted, Accepted, Declined Offer. -/
def isSink : NodeName → Bool
  | .rejected => true
  | .withdrew => true
  | .ghosted => true
  | .accepted => true
  | .declined => true
  | _ => false

structure GEdge where
  src : Nat
  tgt : Nat
  value : Nat
  color : String
deriving DecidableEq, Repr

structure Graph where
  nodes : List (NodeName × Nat)
  edges : List GEdge
deriving DecidableEq, Repr

/-- `color_map` of `generate_sankey_diagram`. -/
def color_map (k : String) : String :=
  match k with
  | "applied" => "rgba(173, 216, 230, 0.8)"
  | "recruiter" => "rgba(173, 216, 230, 0.8)"
  | "total" => "rgba(173, 216, 230, 0.8)"
  | "no_reply" => "rgba(173, 216, 230, 0.6)"
  | "rejected" => "rgba(255, 165, 0, 0.8)"
  | "interview" => "rgba(255, 165, 0, 0.6)"
  | "offer" => "rgba(144, 238, 144, 0.8)"
  | "accepted" => "rgba(144, 238, 144, 0.8)"
  | "declined" => "rgba(144, 238, 144, 0.6)"
  | "withdrew" => "rgba(255, 165, 0, 0.6)"
  | _ => ""

/-- Index of the node carrying a given base label, if present. -/
def findLabel (n : NodeName) : List (NodeName × Nat) → Option Nat
  | [] => none
  | (m, _) :: rest => if m = n then some 0 else (findLabel n rest).map (· + 1)

/-- `get_or_add_label` immediately followed by the `labels[idx] = ...` count
write (every call site of `get_or_add_label` in the source does exactly
this): dedup on the base label, then store the display count. -/
def addLabel (g : Graph) (n : NodeName) (c : Nat) : Graph × Nat :=
  match findLabel n g.nodes with
  | some i => (⟨g.nodes.set i (n, c), g.edges⟩, i)
  | none => (⟨g.nodes ++ [(n, c)], g.edges⟩, g.nodes.length)

def addEdge (g : Graph) (s t v : Nat) (c : String) : Graph :=
  ⟨g.nodes, g.edges ++ [⟨s, t, v, c⟩]⟩

/-- Count of emails with the given status (`stats["by_status"]`). -/
def statusCount (emails : List Email) (st : Status) : Nat :=
  emails.countP (fun e => decide (e.status = st))

/-- Count of emails whose status is not excluded
(`no_reply` / `not_job_related`). -/
def nonExcludedCount (emails : List Email) : Nat :=
  emails.countP (fun e =>
    decide (¬(e.status = .no_reply ∨ e.status = .not_job_related)))

/-- `total_rejected` / `total_withdrew` / `total_ghosted`: the direct count
plus the sum of the stage-dict values (= tally length). -/
def totalRejected (fc : FlowCounts) : Nat :=
  fc.rejected_direct + fc.rejected_from_interview.length

def totalWithdrew (fc : FlowCounts) : Nat :=
  fc.withdrew_direct + fc.withdrew_from_interview.length

def totalGhosted (fc : FlowCounts) : Nat :=
  fc.ghosted_direct + fc.ghosted_from_interview.length

/-- State threaded through the interview-stage loop. -/
structure LoopSt where
  g : Graph
  rejectedIdx : Option Nat
  withdrewIdx : Option Nat
  ghostedIdx : Option Nat
  lastIdx : Nat
  lastNum : Nat

/-- The `if applied_count > 0: applied_idx = get_or_add_label(..)` blocks:
conditionally create a source node. -/
def addSourceNode (g : Graph) (cnt : Nat) (name : NodeName) : Graph × Option Nat :=
  if 0 < cnt then
    let r := addLabel g name cnt
    (r.1, some r.2)
  else (g, none)

/-- The three `Create single Rejected/Withdrew/Ghosted node` blocks:
conditionally create the shared sink node labelled with its total count, and
the direct edge from `Total Applications` when the direct count is
positive. -/
def addSinkNode (g : Graph) (totalIdx tot dir : Nat) (name : NodeName) (ck : String) :
    Graph × Option Nat :=
  if 0 < tot then
    let r := addLabel g name tot
    let g' :=
      if 0 < dir then addEdge r.1 totalIdx r.2 dir (color_map ck)
      else r.1
    (g', some r.2)
  else (g, none)

/-- The three per-stage outcome-flow blocks inside the loop: when this
stage's outcome count is positive, fetch (or belatedly create, with its
total count) the shared sink node and emit the stage→sink edge. -/
def addOutcome (g : Graph) (stage_idx cnt : Nat) (idxOpt : Option Nat)
    (name : NodeName) (tot : Nat) (ck : String) : Graph × Option Nat :=
  if 0 < cnt then
    let gi :=
      match idxOpt with
      | some i => (g, i)
      | none => addLabel g name tot
    (addEdge gi.1 stage_idx gi.2 cnt (color_map ck), some gi.2)
  else (g, idxOpt)

/-- One iteration of the `for stage_num in sorted_stages` loop. -/
def stageStep (fc : FlowCounts) (totalIdx : Nat) (st : LoopSt) (stage_num : Nat) : LoopSt :=
  let rejected_after := fc.rejected_from_interview.count stage_num
  let withdrew_after := fc.withdrew_from_interview.count stage_num
  let ghosted_after := fc.ghosted_from_interview.count stage_num
  let total_at_stage := stageDisplay fc stage_num
  let r := addLabel st.g (NodeName.stage stage_num) total_at_stage
  let stage_idx := r.2
  let g := r.1
  let g :=
    if 0 < st.lastNum ∧ stage_num = st.lastNum + 1 then
      addEdge g st.lastIdx stage_idx total_at_stage (color_map ("interview"))
    else if st.lastNum = 0 then
      addEdge g totalIdx stage_idx total_at_stage (color_map ("interview"))
    else
      addEdge g totalIdx stage_idx total_at_stage (color_map ("interview"))
  let pr := addOutcome g stage_idx rejected_after st.rejectedIdx .rejected
    (totalRejected fc) ("rejected")
  let pw' := addOutcome pr.1 stage_idx withdrew_after st.withdrewIdx .withdrew
    (totalWithdrew fc) ("withdrew")
  let pg := addOutcome pw'.1 stage_idx ghosted_after st.ghostedIdx .ghosted
    (totalGhosted fc) ("no_reply")
  ⟨pg.1, pr.2, pw'.2, pg.2, stage_idx, stage_num⟩

/-- The `if applied_count > 0 / if recruiter_count > 0` source→total edge
blocks: when the source node exists, connect it to `Total Applications`. -/
def addSrcEdge (g : Graph) (idxOpt : Option Nat) (totalIdx cnt : Nat) (ck : String) : Graph :=
  match idxOpt with
  | some i => addEdge g i totalIdx cnt (color_map ck)
  | none => g

/-- `total_applications`: `applied + confirmation` when either is positive,
else the count of non-excluded statuses. -/
def totalApplications (emails : List Email) : Nat :=
  if 0 < statusCount emails .applied ∨ 0 < statusCount emails .confirmation then
    statusCount emails .applied + statusCount emails .confirmation
  else nonExcludedCount emails

/-- Everything in `generate_sankey_diagram` before the interview-stage loop:
source nodes, the `Total Applications` node, source→total edges, the three
shared sink nodes with their direct edges.  Returns the initial loop state
and the total-node index. -/
def sankeyBase (emails : List Email) : LoopSt × Nat :=
  let fc := flow_counts (get_company_flow emails)
  let applied_count := statusCount emails .applied
  let recruiter_count := statusCount emails .confirmation
  let pa := addSourceNode ⟨[], []⟩ applied_count .applied
  let pr := addSourceNode pa.1 recruiter_count .recruiter
  let rt := addLabel pr.1 .total (totalApplications emails)
  let totalIdx := rt.2
  let g := addSrcEdge rt.1 pa.2 totalIdx applied_count ("applied")
  let g := addSrcEdge g pr.2 totalIdx recruiter_count ("recruiter")
  let prj := addSinkNode g totalIdx (totalRejected fc) fc.rejected_direct .rejected ("rejected")
  let pwd := addSinkNode prj.1 totalIdx (totalWithdrew fc) fc.withdrew_direct .withdrew ("withdrew")
  let pgh := addSinkNode pwd.1 totalIdx (totalGhosted fc) fc.ghosted_direct .ghosted ("no_reply")
  (⟨pgh.1, prj.2, pwd.2, pgh.2, totalIdx, 0⟩, totalIdx)

/-- The `if accepted > 0 / if declined_offer > 0` blocks after the Offer
node: conditionally create the leaf node and its edge from `Offer`. -/
def addOfferLeaf (g : Graph) (offerIdx cnt : Nat) (name : NodeName) (ck : String) : Graph :=
  if 0 < cnt then
    let ra := addLabel g name cnt
    addEdge ra.1 offerIdx ra.2 cnt (color_map ck)
  else g

/-- The offer/accepted/declined section after the loop.  The offer source is
`last_stage_idx if interview_stage_indices else total_idx`; the stage index
dict is nonempty exactly when the loop ran at least once. -/
def offerSection (fc : FlowCounts) (totalIdx : Nat) (st : LoopSt) : Graph :=
  if 0 < fc.offer ∨ 0 < fc.accepted ∨ 0 < fc.declined_offer then
    let total_offers := fc.offer + fc.accepted + fc.declined_offer
    let ro := addLabel st.g .offer total_offers
    let offerSrc := if sortedStages fc = [] then totalIdx else st.lastIdx
    let g := addEdge ro.1 offerSrc ro.2 total_offers (color_map ("offer"))
    let g := addOfferLeaf g ro.2 fc.accepted .accepted ("accepted")
    let g := addOfferLeaf g ro.2 fc.declined_offer .declined ("declined")
    g
  else st.g

/-- `AnalyticsGenerator.generate_sankey_diagram`, assembling the abstract
`FlowGraph` (the plotting calls at the end of the Python function only wrap
this data for the renderer). -/
def generate_sankey_diagram (emails : List Email) : Graph :=
  let fc := flow_counts (get_company_flow emails)
  let base := sankeyBase emails
  let stFinal := (sortedStages fc).foldl (stageStep fc base.2) base.1
  offerSection fc base.2 stFinal

/-- Sum of the outgoing edge values of node `i`. -/
def outgoingSum (g : Graph) (i : Nat) : Nat :=
  ((g.edges.filter (fun e => e.src == i)).map GEdge.value).sum

/-! ### Graph-operation lemmas -/

/-- The base label of node `i`. -/
def nameAt (g : Graph) (i : Nat) : Option NodeName := (g.nodes[i]?).map Prod.fst

/-- All base labels of the graph. -/
def namesOf (g : Graph) : List NodeName := g.nodes.map Prod.fst

/-- Every edge leaves a non-sink node. -/
def edgesOk (g : Graph) : Prop :=
  ∀ e ∈ g.edges, ∃ m, nameAt g e.src = some m ∧ isSink m = false

theorem index_lt_of_getElem? {α} {l : List α} {j : Nat} {a : α} (h : l[j]? = some a) :
    j < l.length := by
  by_contra hge
  rw [List.getElem?_eq_none (by omega)] at h
  cases h

theorem findLabel_spec {n : NodeName} :
    ∀ {nodes : List (NodeName × Nat)} {i : Nat}, findLabel n nodes = some i →
      ∃ c, nodes[i]? = some (n, c) := by
  intro nodes
  induction nodes with
  | nil => intro i h; simp [findLabel] at h
  | cons p rest ih =>
    intro i h
    obtain ⟨m, c⟩ := p
    simp only [findLabel] at h
    split_ifs at h with hm
    · cases h
      subst hm
      exact ⟨c, by simp⟩
    · cases hf : findLabel n rest with
      | none =>
        rw [hf] at h
        exact absurd h (by simp)
      | some j =>
        rw [hf] at h
        simp only [Option.map_some'] at h
        obtain ⟨c', hc⟩ := ih hf
        refine ⟨c', ?_⟩
        cases h
        simpa using hc

theorem findLabel_none {n : NodeName} :
    ∀ {nodes : List (NodeName × Nat)}, findLabel n nodes = none →
      ∀ p ∈ nodes, p.1 ≠ n := by
  intro nodes
  induction nodes with
  | nil => intro _ p hp; simp at hp
  | cons q rest ih =>
    intro h p hp
    obtain ⟨m, c⟩ := q
    simp only [findLabel] at h
    split_ifs at h with hm
    have hrest : findLabel n rest = none := by
      cases hf : findLabel n rest with
      | none => rfl
      | some j =>
        rw [hf] at h
        exact absurd h (by simp)
    rcases List.mem_cons.mp hp with hpe | hmem
    · rw [hpe]
      simpa using hm
    · exact ih hrest p hmem

theorem addLabel_target (g : Graph) (n : NodeName) (c : Nat) :
    (addLabel g n c).1.nodes[(addLabel g n c).2]? = some (n, c) := by
  unfold addLabel
  cases hf : findLabel n g.nodes with
  | some i =>
    obtain ⟨c', hc⟩ := findLabel_spec hf
    have hlt : i < g.nodes.length := index_lt_of_getElem? hc
    dsimp only
    simp [List.getElem?_set, hlt]
  | none =>
    dsimp only
    rw [List.getElem?_append_right (Nat.le_refl _)]
    simp

theorem addLabel_nameAt_target (g : Graph) (n : NodeName) (c : Nat) :
    nameAt (addLabel g n c).1 (addLabel g n c).2 = some n := by
  unfold nameAt
  rw [addLabel_target]
  rfl

theorem addLabel_nameAt_mono {g : Graph} {j : Nat} {m : NodeName}
    (h : nameAt g j = some m) (n : NodeName) (c : Nat) :
    nameAt (addLabel g n c).1 j = some m := by
  unfold nameAt at h
  cases hj : g.nodes[j]? with
  | none => rw [hj] at h; cases h
  | some p =>
    rw [hj] at h
    simp only [Option.map_some'] at h
    cases h
    have hjlt : j < g.nodes.length := index_lt_of_getElem? hj
    unfold addLabel nameAt
    cases hf : findLabel n g.nodes with
    | some i =>
      obtain ⟨c', hc⟩ := findLabel_spec hf
      have hilt : i < g.nodes.length := index_lt_of_getElem? hc
      dsimp only
      by_cases hij : i = j
      · subst hij
        rw [hj] at hc
        cases hc
        simp [List.getElem?_set, hilt]
      · simp only [List.getElem?_set]
        rw [if_neg hij, hj]
        simp
    | none =>
      dsimp only
      rw [List.getElem?_append_left hjlt, hj]
      simp

theorem addLabel_entry_pres {g : Graph} {j : Nat} {p : NodeName × Nat}
    (h : g.nodes[j]? = some p) (n : NodeName) (c : Nat) (hne : p.1 ≠ n) :
    (addLabel g n c).1.nodes[j]? = some p := by
  have hjlt : j < g.nodes.length := index_lt_of_getElem? h
  unfold addLabel
  cases hf : findLabel n g.nodes with
  | some i =>
    dsimp only
    by_cases hij : i = j
    · subst hij
      obtain ⟨c', hc⟩ := findLabel_spec hf
      rw [h] at hc
      cases hc
      simp at hne
    · simp only [List.getElem?_set]
      rw [if_neg hij]
      exact h
  | none =>
    dsimp only
    rw [List.getElem?_append_left hjlt]
    exact h

theorem addLabel_edges (g : Graph) (n : NodeName) (c : Nat) :
    (addLabel g n c).1.edges = g.edges := by
  unfold addLabel
  cases findLabel n g.nodes <;> rfl

theorem addLabel_namesOf (g : Graph) (n : NodeName) (c : Nat) :
    ∀ nm ∈ namesOf (addLabel g n c).1, nm ∈ namesOf g ∨ nm = n := by
  unfold addLabel namesOf
  cases hf : findLabel n g.nodes with
  | some i =>
    intro nm hnm
    simp only at hnm
    rcases List.mem_map.mp hnm with ⟨q, hq, rfl⟩
    rcases List.mem_or_eq_of_mem_set hq with hmem | rfl
    · exact Or.inl (List.mem_map_of_mem _ hmem)
    · exact Or.inr rfl
  | none =>
    intro nm hnm
    simp only at hnm
    rcases List.mem_map.mp hnm with ⟨q, hq, rfl⟩
    rcases List.mem_append.mp hq with hmem | hmem
    · exact Or.inl (List.mem_map_of_mem _ hmem)
    · rw [List.mem_singleton.mp hmem]
      exact Or.inr rfl

theorem addEdge_nodes (g : Graph) (s t v : Nat) (c : String) :
    (addEdge g s t v c).nodes = g.nodes := rfl

theorem addEdge_nameAt (g : Graph) (s t v : Nat) (c : String) (j : Nat) :
    nameAt (addEdge g s t v c) j = nameAt g j := rfl

theorem addEdge_edges (g : Graph) (s t v : Nat) (c : String) :
    (addEdge g s t v c).edges = g.edges ++ [⟨s, t, v, c⟩] := rfl

theorem edgesOk_addLabel {g : Graph} (h : edgesOk g) (n : NodeName) (c : Nat) :
    edgesOk (addLabel g n c).1 := by
  intro e he
  rw [addLabel_edges] at he
  obtain ⟨m, hm, hs⟩ := h e he
  exact ⟨m, addLabel_nameAt_mono hm n c, hs⟩

theorem edgesOk_addEdge {g : Graph} (h : edgesOk g) {s : Nat}
    (hs : ∃ m, nameAt g s = some m ∧ isSink m = false) (t v : Nat) (ck : String) :
    edgesOk (addEdge g s t v ck) := by
  intro e he
  rw [addEdge_edges] at he
  rcases List.mem_append.mp he with he | he
  · obtain ⟨m, hm, hsk⟩ := h e he
    exact ⟨m, hm, hsk⟩
  · rw [List.mem_singleton.mp he]
    exact hs

theorem asn_nameAt_mono {g : Graph} {j : Nat} {m : NodeName}
    (h : nameAt g j = some m) (cnt : Nat) (name : NodeName) :
    nameAt (addSourceNode g cnt name).1 j = some m := by
  unfold addSourceNode
  split_ifs with hc
  · exact addLabel_nameAt_mono h _ _
  · exact h

theorem asn_entry_pres {g : Graph} {j : Nat} {p : NodeName × Nat}
    (h : g.nodes[j]? = some p) (cnt : Nat) (name : NodeName) (hne : p.1 ≠ name) :
    (addSourceNode g cnt name).1.nodes[j]? = some p := by
  unfold addSourceNode
  split_ifs with hc
  · exact addLabel_entry_pres h _ _ hne
  · exact h

theorem asn_edges (g : Graph) (cnt : Nat) (name : NodeName) :
    (addSourceNode g cnt name).1.edges = g.edges := by
  unfold addSourceNode
  split_ifs with hc
  · exact addLabel_edges _ _ _
  · rfl

theorem asn_edgesOk {g : Graph} (hok : edgesOk g) (cnt : Nat) (name : NodeName) :
    edgesOk (addSourceNode g cnt name).1 := by
  unfold addSourceNode
  split_ifs with hc
  · exact edgesOk_addLabel hok _ _
  · exact hok

theorem asn_namesOf (g : Graph) (cnt : Nat) (name : NodeName) :
    ∀ nm ∈ namesOf (addSourceNode g cnt name).1, nm ∈ namesOf g ∨ nm = name := by
  unfold addSourceNode
  split_ifs with hc
  · exact addLabel_namesOf _ _ _
  · exact fun nm hnm => Or.inl hnm

theorem asn_idx_name {g : Graph} {cnt : Nat} {name : NodeName} {i : Nat}
    (h : (addSourceNode g cnt name).2 = some i) :
    nameAt (addSourceNode g cnt name).1 i = some name := by
  unfold addSourceNode at h ⊢
  by_cases hc : 0 < cnt
  · rw [if_pos hc] at h ⊢
    dsimp only at h ⊢
    simp only [Option.some_inj] at h
    rw [← h]
    exact addLabel_nameAt_target _ _ _
  · rw [if_neg hc] at h
    cases h

theorem ask_nameAt_mono {g : Graph} {j : Nat} {m : NodeName}
    (h : nameAt g j = some m) (totalIdx tot dir : Nat) (name : NodeName) (ck : String) :
    nameAt (addSinkNode g totalIdx tot dir name ck).1 j = some m := by
  unfold addSinkNode
  split_ifs with hc hd
  · rw [addEdge_nameAt]
    exact addLabel_nameAt_mono h _ _
  · exact addLabel_nameAt_mono h _ _
  · exact h

theorem ask_entry_pres {g : Graph} {j : Nat} {p : NodeName × Nat}
    (h : g.nodes[j]? = some p) (totalIdx tot dir : Nat) (name : NodeName) (ck : String)
    (hne : p.1 ≠ name) :
    (addSinkNode g totalIdx tot dir name ck).1.nodes[j]? = some p := by
  unfold addSinkNode
  split_ifs with hc hd
  · rw [addEdge_nodes]
    exact addLabel_entry_pres h _ _ hne
  · exact addLabel_entry_pres h _ _ hne
  · exact h

theorem ask_edges_mono {g : Graph} (totalIdx tot dir : Nat) (name : NodeName) (ck : String) :
    ∀ e ∈ g.edges, e ∈ (addSinkNode g totalIdx tot dir name ck).1.edges := by
  unfold addSinkNode
  split_ifs with hc hd
  · intro e he
    rw [addEdge_edges, addLabel_edges]
    exact List.mem_append_left _ he
  · intro e he
    rw [addLabel_edges]
    exact he
  · exact fun e he => he

theorem ask_edgesOk {g : Graph} (hok : edgesOk g) {totalIdx : Nat}
    (htotal : ∃ mt, nameAt g totalIdx = some mt ∧ isSink mt = false)
    (tot dir : Nat) (name : NodeName) (ck : String) :
    edgesOk (addSinkNode g totalIdx tot dir name ck).1 := by
  obtain ⟨mt, hmt, hms⟩ := htotal
  unfold addSinkNode
  split_ifs with hc hd
  · exact edgesOk_addEdge (edgesOk_addLabel hok _ _)
      ⟨mt, addLabel_nameAt_mono hmt _ _, hms⟩ _ _ _
  · exact edgesOk_addLabel hok _ _
  · exact hok

theorem ask_namesOf (g : Graph) (totalIdx tot dir : Nat) (name : NodeName) (ck : String) :
    ∀ nm ∈ namesOf (addSinkNode g totalIdx tot dir name ck).1,
      nm ∈ namesOf g ∨ nm = name := by
  unfold addSinkNode
  split_ifs with hc hd
  · intro nm hnm
    have : namesOf (addEdge (addLabel g name tot).1 totalIdx (addLabel g name tot).2
        dir (color_map ck)) = namesOf (addLabel g name tot).1 := rfl
    rw [this] at hnm
    exact addLabel_namesOf _ _ _ nm hnm
  · exact addLabel_namesOf _ _ _
  · exact fun nm hnm => Or.inl hnm

theorem ask_idx_name {g : Graph} {totalIdx tot dir : Nat} {name : NodeName} {ck : String}
    {i : Nat} (h : (addSinkNode g totalIdx tot dir name ck).2 = some i) :
    nameAt (addSinkNode g totalIdx tot dir name ck).1 i = some name := by
  unfold addSinkNode at h ⊢
  by_cases hc : 0 < tot
  · rw [if_pos hc] at h ⊢
    dsimp only at h ⊢
    simp only [Option.some_inj] at h
    by_cases hd : 0 < dir
    · rw [if_pos hd, addEdge_nameAt, ← h]
      exact addLabel_nameAt_target _ _ _
    · rw [if_neg hd, ← h]
      exact addLabel_nameAt_target _ _ _
  · rw [if_neg hc] at h
    cases h

theorem ao_nameAt_mono {g : Graph} {j : Nat} {m : NodeName}
    (h : nameAt g j = some m) (si cnt : Nat) (idxOpt : Option Nat) (name : NodeName)
    (tot : Nat) (ck : String) :
    nameAt (addOutcome g si cnt idxOpt name tot ck).1 j = some m := by
  unfold addOutcome
  split_ifs with hc
  · cases idxOpt with
    | some i => exact h
    | none =>
      dsimp only
      rw [addEdge_nameAt]
      exact addLabel_nameAt_mono h _ _
  · exact h

theorem ao_entry_pres {g : Graph} {j : Nat} {p : NodeName × Nat}
    (h : g.nodes[j]? = some p) (si cnt : Nat) (idxOpt : Option Nat) (name : NodeName)
    (tot : Nat) (ck : String) (hne : p.1 ≠ name) :
    (addOutcome g si cnt idxOpt name tot ck).1.nodes[j]? = some p := by
  unfold addOutcome
  split_ifs with hc
  · cases idxOpt with
    | some i => exact h
    | none =>
      dsimp only
      rw [addEdge_nodes]
      exact addLabel_entry_pres h _ _ hne
  · exact h

theorem ao_edges_mono {g : Graph} (si cnt : Nat) (idxOpt : Option Nat) (name : NodeName)
    (tot : Nat) (ck : String) :
    ∀ e ∈ g.edges, e ∈ (addOutcome g si cnt idxOpt name tot ck).1.edges := by
  unfold addOutcome
  split_ifs with hc
  · cases idxOpt with
    | some i =>
      intro e he
      rw [addEdge_edges]
      exact List.mem_append_left _ he
    | none =>
      intro e he
      dsimp only
      rw [addEdge_edges, addLabel_edges]
      exact List.mem_append_left _ he
  · exact fun e he => he

theorem ao_edgesOk {g : Graph} (hok : edgesOk g) {si : Nat}
    (hsi : ∃ ms, nameAt g si = some ms ∧ isSink ms = false)
    (cnt : Nat) (idxOpt : Option Nat) (name : NodeName) (tot : Nat) (ck : String) :
    edgesOk (addOutcome g si cnt idxOpt name tot ck).1 := by
  obtain ⟨ms, hms, hss⟩ := hsi
  unfold addOutcome
  split_ifs with hc
  · cases idxOpt with
    | some i => exact edgesOk_addEdge hok ⟨ms, hms, hss⟩ _ _ _
    | none =>
      dsimp only
      exact edgesOk_addEdge (edgesOk_addLabel hok _ _)
        ⟨ms, addLabel_nameAt_mono hms _ _, hss⟩ _ _ _
  · exact hok

theorem ao_namesOf (g : Graph) (si cnt : Nat) (idxOpt : Option Nat) (name : NodeName)
    (tot : Nat) (ck : String) :
    ∀ nm ∈ namesOf (addOutcome g si cnt idxOpt name tot ck).1,
      nm ∈ namesOf g ∨ nm = name := by
  unfold addOutcome
  split_ifs with hc
  · cases idxOpt with
    | some i => exact fun nm hnm => Or.inl hnm
    | none =>
      dsimp only
      intro nm hnm
      have : namesOf (addEdge (addLabel g name tot).1 si (addLabel g name tot).2
          cnt (color_map ck)) = namesOf (addLabel g name tot).1 := rfl
      rw [this] at hnm
      exact addLabel_namesOf _ _ _ nm hnm
  · exact fun nm hnm => Or.inl hnm

theorem addLabel_mem_nodes {g : Graph} {n : NodeName} {c : Nat} {q : NodeName × Nat}
    (h : q ∈ (addLabel g n c).1.nodes) : q ∈ g.nodes ∨ q = (n, c) := by
  unfold addLabel at h
  cases hf : findLabel n g.nodes with
  | some i =>
    rw [hf] at h
    exact List.mem_or_eq_of_mem_set h
  | none =>
    rw [hf] at h
    rcases List.mem_append.mp h with hm | hm
    · exact Or.inl hm
    · exact Or.inr (List.mem_singleton.mp hm)

/-- `stageStep` rewritten with the three-way connect `if` contracted: the
second and third branches of the source `if/elif/else` are identical. -/
theorem stageStep_eq (fc : FlowCounts) (totalIdx : Nat) (st : LoopSt) (s : Nat) :
    stageStep fc totalIdx st s =
      (let r := addLabel st.g (NodeName.stage s) (stageDisplay fc s)
       let src := if 0 < st.lastNum ∧ s = st.lastNum + 1 then st.lastIdx else totalIdx
       let g1 := addEdge r.1 src r.2 (stageDisplay fc s) (color_map ("interview"))
       let p1 := addOutcome g1 r.2 (fc.rejected_from_interview.count s) st.rejectedIdx
         .rejected (totalRejected fc) ("rejected")
       let p2 := addOutcome p1.1 r.2 (fc.withdrew_from_interview.count s) st.withdrewIdx
         .withdrew (totalWithdrew fc) ("withdrew")
       let p3 := addOutcome p2.1 r.2 (fc.ghosted_from_interview.count s) st.ghostedIdx
         .ghosted (totalGhosted fc) ("no_reply")
       ⟨p3.1, p1.2, p2.2, p3.2, r.2, s⟩) := by
  unfold stageStep
  by_cases hcase : 0 < st.lastNum ∧ s = st.lastNum + 1
  · simp [hcase]
  · simp [hcase, ite_self]

theorem stageStep_spec (fc : FlowCounts) (totalIdx : Nat) (st : LoopSt) (s : Nat)
    (htotal : nameAt st.g totalIdx = some .total)
    (hlast : ∃ ml, nameAt st.g st.lastIdx = some ml ∧ isSink ml = false)
    (hok : edgesOk st.g) :
    (∀ (j : Nat) (m : NodeName), nameAt st.g j = some m →
        nameAt (stageStep fc totalIdx st s).g j = some m) ∧
      (∀ (j : Nat) (p : NodeName × Nat), st.g.nodes[j]? = some p → p.1 ≠ .stage s →
        isSink p.1 = false → (stageStep fc totalIdx st s).g.nodes[j]? = some p) ∧
      (∀ e ∈ st.g.edges, e ∈ (stageStep fc totalIdx st s).g.edges) ∧
      edgesOk (stageStep fc totalIdx st s).g ∧
      (∀ nm ∈ namesOf (stageStep fc totalIdx st s).g,
        nm ∈ namesOf st.g ∨ nm = .stage s ∨ isSink nm = true) ∧
      (stageStep fc totalIdx st s).g.nodes[(stageStep fc totalIdx st s).lastIdx]? =
        some (.stage s, stageDisplay fc s) ∧
      (stageStep fc totalIdx st s).lastNum = s ∧
      (∃ e ∈ (stageStep fc totalIdx st s).g.edges,
        e.src = (if 0 < st.lastNum ∧ s = st.lastNum + 1 then st.lastIdx else totalIdx) ∧
          e.tgt = (stageStep fc totalIdx st s).lastIdx ∧ e.value = stageDisplay fc s) := by
  rw [stageStep_eq]
  dsimp only
  set r := addLabel st.g (NodeName.stage s) (stageDisplay fc s) with hrdef
  set src := if 0 < st.lastNum ∧ s = st.lastNum + 1 then st.lastIdx else totalIdx with hsrc
  set g1 := addEdge r.1 src r.2 (stageDisplay fc s) (color_map ("interview")) with hg1
  set p1 := addOutcome g1 r.2 (fc.rejected_from_interview.count s) st.rejectedIdx
    .rejected (totalRejected fc) ("rejected") with hp1
  set p2 := addOutcome p1.1 r.2 (fc.withdrew_from_interview.count s) st.withdrewIdx
    .withdrew (totalWithdrew fc) ("withdrew") with hp2
  set p3 := addOutcome p2.1 r.2 (fc.ghosted_from_interview.count s) st.ghostedIdx
    .ghosted (totalGhosted fc) ("no_reply") with hp3
  have hmono : ∀ j m, nameAt st.g j = some m → nameAt p3.1 j = some m := by
    intro j m h
    rw [hp3]
    refine ao_nameAt_mono ?_ _ _ _ _ _ _
    rw [hp2]
    refine ao_nameAt_mono ?_ _ _ _ _ _ _
    rw [hp1]
    refine ao_nameAt_mono ?_ _ _ _ _ _ _
    rw [hg1, addEdge_nameAt, hrdef]
    exact addLabel_nameAt_mono h _ _
  have hstage_name_g1 : nameAt g1 r.2 = some (.stage s) := by
    rw [hg1, addEdge_nameAt, hrdef]
    exact addLabel_nameAt_target _ _ _
  have hstage_name_p1 : nameAt p1.1 r.2 = some (.stage s) := by
    rw [hp1]
    exact ao_nameAt_mono hstage_name_g1 _ _ _ _ _ _
  have hstage_name_p2 : nameAt p2.1 r.2 = some (.stage s) := by
    rw [hp2]
    exact ao_nameAt_mono hstage_name_p1 _ _ _ _ _ _
  have hentry : p3.1.nodes[r.2]? = some (.stage s, stageDisplay fc s) := by
    rw [hp3]
    refine ao_entry_pres ?_ _ _ _ _ _ _ (by simp)
    rw [hp2]
    refine ao_entry_pres ?_ _ _ _ _ _ _ (by simp)
    rw [hp1]
    refine ao_entry_pres ?_ _ _ _ _ _ _ (by simp)
    rw [hg1, addEdge_nodes, hrdef]
    exact addLabel_target _ _ _
  refine ⟨hmono, ?_, ?_, ?_, ?_, hentry, rfl, ?_⟩
  · intro j p hp hne hns
    rw [hp3]
    refine ao_entry_pres ?_ _ _ _ _ _ _
      (fun hcon => by rw [hcon] at hns; simp [isSink] at hns)
    rw [hp2]
    refine ao_entry_pres ?_ _ _ _ _ _ _
      (fun hcon => by rw [hcon] at hns; simp [isSink] at hns)
    rw [hp1]
    refine ao_entry_pres ?_ _ _ _ _ _ _
      (fun hcon => by rw [hcon] at hns; simp [isSink] at hns)
    rw [hg1, addEdge_nodes, hrdef]
    exact addLabel_entry_pres hp _ _ hne
  · intro e he
    rw [hp3]
    refine ao_edges_mono _ _ _ _ _ _ e ?_
    rw [hp2]
    refine ao_edges_mono _ _ _ _ _ _ e ?_
    rw [hp1]
    refine ao_edges_mono _ _ _ _ _ _ e ?_
    rw [hg1, addEdge_edges, hrdef, addLabel_edges]
    exact List.mem_append_left _ he
  · have hsrcname : ∃ m, nameAt r.1 src = some m ∧ isSink m = false := by
      rw [hsrc]
      split_ifs with hcase
      · obtain ⟨ml, hml, hmls⟩ := hlast
        exact ⟨ml, by rw [hrdef]; exact addLabel_nameAt_mono hml _ _, hmls⟩
      · exact ⟨.total, by rw [hrdef]; exact addLabel_nameAt_mono htotal _ _,
          by simp [isSink]⟩
    have hok1 : edgesOk g1 := by
      rw [hg1]
      refine edgesOk_addEdge ?_ hsrcname _ _ _
      rw [hrdef]
      exact edgesOk_addLabel hok _ _
    have hok2 : edgesOk p1.1 := by
      rw [hp1]
      exact ao_edgesOk hok1 ⟨.stage s, hstage_name_g1, by simp [isSink]⟩ _ _ _ _ _
    have hok3 : edgesOk p2.1 := by
      rw [hp2]
      exact ao_edgesOk hok2 ⟨.stage s, hstage_name_p1, by simp [isSink]⟩ _ _ _ _ _
    rw [hp3]
    exact ao_edgesOk hok3 ⟨.stage s, hstage_name_p2, by simp [isSink]⟩ _ _ _ _ _
  · intro nm hnm
    rw [hp3] at hnm
    rcases ao_namesOf _ _ _ _ _ _ _ nm hnm with h3 | h3
    · rw [hp2] at h3
      rcases ao_namesOf _ _ _ _ _ _ _ nm h3 with h2 | h2
      · rw [hp1] at h2
        rcases ao_namesOf _ _ _ _ _ _ _ nm h2 with h1 | h1
        · have hng : namesOf (addEdge r.1 src r.2 (stageDisplay fc s)
              (color_map ("interview"))) = namesOf r.1 := rfl
          rw [hg1, hng, hrdef] at h1
          rcases addLabel_namesOf _ _ _ nm h1 with h0 | h0
          · exact Or.inl h0
          · exact Or.inr (Or.inl h0)
        · exact Or.inr (Or.inr (by rw [h1]; rfl))
      · exact Or.inr (Or.inr (by rw [h2]; rfl))
    · exact Or.inr (Or.inr (by rw [h3]; rfl))
  · refine ⟨⟨src, r.2, stageDisplay fc s, color_map ("interview")⟩, ?_, rfl, rfl, rfl⟩
    rw [hp3]
    refine ao_edges_mono _ _ _ _ _ _ _ ?_
    rw [hp2]
    refine ao_edges_mono _ _ _ _ _ _ _ ?_
    rw [hp1]
    refine ao_edges_mono _ _ _ _ _ _ _ ?_
    rw [hg1, addEdge_edges]
    exact List.mem_append_right _ (by simp)

/-- What one run of the interview-stage loop over stages `k+1 .. k+m`
guarantees, going from state `st` to state `st'`. -/
def loopOut (fc : FlowCounts) (k m : Nat) (st st' : LoopSt) : Prop :=
  (∀ (j : Nat) (mm : NodeName), nameAt st.g j = some mm → nameAt st'.g j = some mm) ∧
  (∀ (j : Nat) (p : NodeName × Nat), st.g.nodes[j]? = some p → isSink p.1 = false →
    (∀ t, k < t → p.1 ≠ .stage t) → st'.g.nodes[j]? = some p) ∧
  (∀ e ∈ st.g.edges, e ∈ st'.g.edges) ∧
  edgesOk st'.g ∧
  st'.lastNum = k + m ∧
  (0 < m → st'.g.nodes[st'.lastIdx]? = some (.stage (k + m), stageDisplay fc (k + m))) ∧
  (∀ nm ∈ namesOf st'.g, nm ∈ namesOf st.g ∨ (∃ t, nm = .stage t) ∨ isSink nm = true) ∧
  (∀ i, k < i → i ≤ k + m →
    ∃ idx, st'.g.nodes[idx]? = some (.stage i, stageDisplay fc i) ∧
      ∃ e ∈ st'.g.edges, e.tgt = idx ∧ e.value = stageDisplay fc i ∧
        nameAt st'.g e.src =
          some (if i = 1 then NodeName.total else NodeName.stage (i - 1)))

theorem loop_spec (fc : FlowCounts) (totalIdx : Nat) :
    ∀ (m k : Nat) (st : LoopSt),
      nameAt st.g totalIdx = some .total →
      st.lastNum = k →
      (k = 0 → st.lastIdx = totalIdx) →
      (0 < k → st.g.nodes[st.lastIdx]? = some (.stage k, stageDisplay fc k)) →
      edgesOk st.g →
      loopOut fc k m st ((List.range' (k + 1) m).foldl (stageStep fc totalIdx) st) := by
  intro m
  induction m with
  | zero =>
    intro k st htotal hln hk0 hkpos hok
    unfold loopOut
    exact ⟨fun j mm h => h, fun j p hp _ _ => hp, fun e he => he, hok,
      by simp [hln], fun h0 => absurd h0 (by omega), fun nm hnm => Or.inl hnm,
      fun i hi1 hi2 => absurd hi2 (by omega)⟩
  | succ m ih =>
    intro k st htotal hln hk0 hkpos hok
    rw [List.range'_succ, List.foldl_cons]
    have hlast : ∃ ml, nameAt st.g st.lastIdx = some ml ∧ isSink ml = false := by
      rcases Nat.eq_zero_or_pos k with hk | hk
      · rw [hk0 hk]
        exact ⟨.total, htotal, by simp [isSink]⟩
      · refine ⟨.stage k, ?_, by simp [isSink]⟩
        unfold nameAt
        rw [hkpos hk]
        rfl
    obtain ⟨s1, s2, s3, s4, s5, s6, s7, s8⟩ :=
      stageStep_spec fc totalIdx st (k + 1) htotal hlast hok
    obtain ⟨t1, t2, t3, t4, t5, t6, t7, t8⟩ :=
      ih (k + 1) (stageStep fc totalIdx st (k + 1)) (s1 _ _ htotal) s7
        (fun hcon => absurd hcon (by omega)) (fun _ => s6) s4
    unfold loopOut
    refine ⟨?_, ?_, ?_, t4, ?_, ?_, ?_, ?_⟩
    · exact fun j mm h => t1 j mm (s1 j mm h)
    · intro j p hp hs hnostage
      exact t2 j p (s2 j p hp (hnostage (k + 1) (by omega)) hs) hs
        (fun t ht => hnostage t (by omega))
    · exact fun e he => t3 e (s3 e he)
    · have h5 := t5
      omega
    · intro _
      have harith : k + 1 + m = k + (m + 1) := by omega
      rcases Nat.eq_zero_or_pos m with hm | hm
      · subst hm
        have hentry := s6
        rw [show k + (0 + 1) = k + 1 from by omega]
        simpa using hentry
      · have hh := t6 hm
        rw [harith] at hh
        exact hh
    · intro nm hnm
      rcases t7 nm hnm with h1 | h1
      · rcases s5 nm h1 with h0 | h0 | h0
        · exact Or.inl h0
        · exact Or.inr (Or.inl ⟨k + 1, h0⟩)
        · exact Or.inr (Or.inr h0)
      · exact Or.inr h1
    · intro i hi1 hi2
      by_cases hieq : i = k + 1
      · subst hieq
        refine ⟨(stageStep fc totalIdx st (k + 1)).lastIdx, ?_, ?_⟩
        · exact t2 _ _ s6 (by simp [isSink]) (fun t ht => by simp; omega)
        · obtain ⟨e, hemem, hesrc, hetgt, heval⟩ := s8
          refine ⟨e, t3 e hemem, hetgt, heval, ?_⟩
          rcases Nat.eq_zero_or_pos k with hk | hk
          · have hcond : ¬(0 < st.lastNum ∧ k + 1 = st.lastNum + 1) := by
              rw [hln, hk]
              omega
            rw [if_neg hcond] at hesrc
            have : nameAt (stageStep fc totalIdx st (k + 1)).g e.src = some .total := by
              rw [hesrc]
              exact s1 _ _ htotal
            rw [if_pos (by omega : k + 1 = 1)]
            exact t1 _ _ this
          · have hcond : 0 < st.lastNum ∧ k + 1 = st.lastNum + 1 := by
              rw [hln]
              omega
            rw [if_pos hcond] at hesrc
            have hnm0 : nameAt st.g st.lastIdx = some (.stage k) := by
              unfold nameAt
              rw [hkpos hk]
              rfl
            have : nameAt (stageStep fc totalIdx st (k + 1)).g e.src = some (.stage k) := by
              rw [hesrc]
              exact s1 _ _ hnm0
            rw [if_neg (by omega : ¬(k + 1 = 1)), show k + 1 - 1 = k from by omega]
            exact t1 _ _ this
      · obtain ⟨idx, hidx, e, hemem, hrest⟩ := t8 i (by omega) (by omega)
        exact ⟨idx, hidx, e, hemem, hrest⟩

theorem ase_nameAt (g : Graph) (idxOpt : Option Nat) (totalIdx cnt : Nat) (ck : String)
    (j : Nat) : nameAt (addSrcEdge g idxOpt totalIdx cnt ck) j = nameAt g j := by
  cases idxOpt <;> rfl

theorem ase_nodes (g : Graph) (idxOpt : Option Nat) (totalIdx cnt : Nat) (ck : String) :
    (addSrcEdge g idxOpt totalIdx cnt ck).nodes = g.nodes := by
  cases idxOpt <;> rfl

theorem ase_edges_mono (g : Graph) (idxOpt : Option Nat) (totalIdx cnt : Nat) (ck : String) :
    ∀ e ∈ g.edges, e ∈ (addSrcEdge g idxOpt totalIdx cnt ck).edges := by
  cases idxOpt with
  | none => exact fun e he => he
  | some i =>
    intro e he
    exact List.mem_append_left _ he

theorem ase_edgesOk {g : Graph} (hok : edgesOk g) {idxOpt : Option Nat}
    (hidx : ∀ i, idxOpt = some i → ∃ m, nameAt g i = some m ∧ isSink m = false)
    (totalIdx cnt : Nat) (ck : String) :
    edgesOk (addSrcEdge g idxOpt totalIdx cnt ck) := by
  cases idxOpt with
  | none => exact hok
  | some i => exact edgesOk_addEdge hok (hidx i rfl) _ _ _

/-- Specification of everything built before the interview-stage loop. -/
theorem sankeyBase_spec (emails : List Email) :
    nameAt (sankeyBase emails).1.g (sankeyBase emails).2 = some .total ∧
      edgesOk (sankeyBase emails).1.g ∧
      (sankeyBase emails).1.lastNum = 0 ∧
      (sankeyBase emails).1.lastIdx = (sankeyBase emails).2 ∧
      (∀ nm ∈ namesOf (sankeyBase emails).1.g,
        nm = .applied ∨ nm = .recruiter ∨ nm = .total ∨ nm = .rejected ∨
          nm = .withdrew ∨ nm = .ghosted) := by
  unfold sankeyBase
  dsimp only
  set fc := flow_counts (get_company_flow emails) with hfc
  set ac := statusCount emails .applied with hac
  set rc := statusCount emails .confirmation with hrc
  set pa := addSourceNode ⟨[], []⟩ ac .applied with hpa
  set pr := addSourceNode pa.1 rc .recruiter with hpr
  set rt := addLabel pr.1 .total (totalApplications emails) with hrt
  set gA := addSrcEdge rt.1 pa.2 rt.2 ac ("applied") with hgA
  set gB := addSrcEdge gA pr.2 rt.2 rc ("recruiter") with hgB
  set prj := addSinkNode gB rt.2 (totalRejected fc) fc.rejected_direct .rejected
    ("rejected") with hprj
  set pwd := addSinkNode prj.1 rt.2 (totalWithdrew fc) fc.withdrew_direct .withdrew
    ("withdrew") with hpwd
  set pgh := addSinkNode pwd.1 rt.2 (totalGhosted fc) fc.ghosted_direct .ghosted
    ("no_reply") with hpgh
  have hbase_ok : edgesOk (⟨[], []⟩ : Graph) := fun e he => absurd he (by simp)
  have htot_rt : nameAt rt.1 rt.2 = some .total := by
    rw [hrt]
    exact addLabel_nameAt_target _ _ _
  have htot_gA : nameAt gA rt.2 = some .total := by
    rw [hgA, ase_nameAt]
    exact htot_rt
  have htot_gB : nameAt gB rt.2 = some .total := by
    rw [hgB, ase_nameAt]
    exact htot_gA
  have htot_prj : nameAt prj.1 rt.2 = some .total := by
    rw [hprj]
    exact ask_nameAt_mono htot_gB _ _ _ _ _
  have htot_pwd : nameAt pwd.1 rt.2 = some .total := by
    rw [hpwd]
    exact ask_nameAt_mono htot_prj _ _ _ _ _
  have htot_pgh : nameAt pgh.1 rt.2 = some .total := by
    rw [hpgh]
    exact ask_nameAt_mono htot_pwd _ _ _ _ _
  have hok_rt : edgesOk rt.1 := by
    rw [hrt]
    refine edgesOk_addLabel ?_ _ _
    rw [hpr]
    refine asn_edgesOk ?_ _ _
    rw [hpa]
    exact asn_edgesOk hbase_ok _ _
  have hok_gA : edgesOk gA := by
    rw [hgA]
    refine ase_edgesOk hok_rt ?_ _ _ _
    intro i hi
    refine ⟨.applied, ?_, by simp [isSink]⟩
    rw [hrt]
    refine addLabel_nameAt_mono ?_ _ _
    rw [hpr]
    refine asn_nameAt_mono ?_ _ _
    rw [hpa] at hi ⊢
    exact asn_idx_name hi
  have hok_gB : edgesOk gB := by
    rw [hgB]
    refine ase_edgesOk hok_gA ?_ _ _ _
    intro i hi
    refine ⟨.recruiter, ?_, by simp [isSink]⟩
    rw [hgA, ase_nameAt, hrt]
    refine addLabel_nameAt_mono ?_ _ _
    rw [hpr] at hi ⊢
    exact asn_idx_name hi
  have hok_prj : edgesOk prj.1 := by
    rw [hprj]
    exact ask_edgesOk hok_gB ⟨.total, htot_gB, by simp [isSink]⟩ _ _ _ _
  have hok_pwd : edgesOk pwd.1 := by
    rw [hpwd]
    exact ask_edgesOk hok_prj ⟨.total, htot_prj, by simp [isSink]⟩ _ _ _ _
  have hok_pgh : edgesOk pgh.1 := by
    rw [hpgh]
    exact ask_edgesOk hok_pwd ⟨.total, htot_pwd, by simp [isSink]⟩ _ _ _ _
  refine ⟨htot_pgh, hok_pgh, rfl, rfl, ?_⟩
  intro nm hnm
  rw [hpgh] at hnm
  rcases ask_namesOf _ _ _ _ _ _ nm hnm with h5 | h5
  swap
  · exact Or.inr (Or.inr (Or.inr (Or.inr (Or.inr h5))))
  rw [hpwd] at h5
  rcases ask_namesOf _ _ _ _ _ _ nm h5 with h4 | h4
  swap
  · exact Or.inr (Or.inr (Or.inr (Or.inr (Or.inl h4))))
  rw [hprj] at h4
  rcases ask_namesOf _ _ _ _ _ _ nm h4 with h3 | h3
  swap
  · exact Or.inr (Or.inr (Or.inr (Or.inl h3)))
  rw [hgB] at h3
  have hnB : namesOf (addSrcEdge gA pr.2 rt.2 rc ("recruiter")) = namesOf gA := by
    unfold namesOf
    rw [ase_nodes]
  rw [hnB, hgA] at h3
  have hnA : namesOf (addSrcEdge rt.1 pa.2 rt.2 ac ("applied")) = namesOf rt.1 := by
    unfold namesOf
    rw [ase_nodes]
  rw [hnA, hrt] at h3
  rcases addLabel_namesOf _ _ _ nm h3 with h2 | h2
  swap
  · exact Or.inr (Or.inr (Or.inl h2))
  rw [hpr] at h2
  rcases asn_namesOf _ _ _ nm h2 with h1 | h1
  swap
  · exact Or.inr (Or.inl h1)
  rw [hpa] at h1
  rcases asn_namesOf _ _ _ nm h1 with h0 | h0
  · exact absurd h0 (by simp [namesOf])
  · exact Or.inl h0

theorem aol_nameAt_mono {g : Graph} {j : Nat} {m : NodeName}
    (h : nameAt g j = some m) (offerIdx cnt : Nat) (name : NodeName) (ck : String) :
    nameAt (addOfferLeaf g offerIdx cnt name ck) j = some m := by
  unfold addOfferLeaf
  split_ifs with hc
  · rw [addEdge_nameAt]
    exact addLabel_nameAt_mono h _ _
  · exact h

theorem aol_entry_pres {g : Graph} {j : Nat} {p : NodeName × Nat}
    (h : g.nodes[j]? = some p) (offerIdx cnt : Nat) (name : NodeName) (ck : String)
    (hne : p.1 ≠ name) :
    (addOfferLeaf g offerIdx cnt name ck).nodes[j]? = some p := by
  unfold addOfferLeaf
  split_ifs with hc
  · rw [addEdge_nodes]
    exact addLabel_entry_pres h _ _ hne
  · exact h

theorem aol_edges_mono (g : Graph) (offerIdx cnt : Nat) (name : NodeName) (ck : String) :
    ∀ e ∈ g.edges, e ∈ (addOfferLeaf g offerIdx cnt name ck).edges := by
  unfold addOfferLeaf
  split_ifs with hc
  · intro e he
    rw [addEdge_edges, addLabel_edges]
    exact List.mem_append_left _ he
  · exact fun e he => he

theorem aol_edgesOk {g : Graph} (hok : edgesOk g) {offerIdx : Nat}
    (hsrc : ∃ m, nameAt g offerIdx = some m ∧ isSink m = false)
    (cnt : Nat) (name : NodeName) (ck : String) :
    edgesOk (addOfferLeaf g offerIdx cnt name ck) := by
  obtain ⟨m, hm, hs⟩ := hsrc
  unfold addOfferLeaf
  split_ifs with hc
  · exact edgesOk_addEdge (edgesOk_addLabel hok _ _)
      ⟨m, addLabel_nameAt_mono hm _ _, hs⟩ _ _ _
  · exact hok

theorem aol_mem_nodes {g : Graph} {offerIdx cnt : Nat} {name : NodeName} {ck : String}
    {q : NodeName × Nat} (h : q ∈ (addOfferLeaf g offerIdx cnt name ck).nodes) :
    q ∈ g.nodes ∨ q = (name, cnt) := by
  unfold addOfferLeaf at h
  split_ifs at h with hc
  · rw [addEdge_nodes] at h
    exact addLabel_mem_nodes h
  · exact Or.inl h

/-- Specification of the offer/accepted/declined section. -/
theorem offerSection_spec (fc : FlowCounts) (totalIdx : Nat) (st : LoopSt)
    (hok : edgesOk st.g)
    (hsrc : ∃ m, nameAt st.g (if sortedStages fc = [] then totalIdx else st.lastIdx) =
      some m ∧ isSink m = false) :
    (∀ (j : Nat) (m : NodeName), nameAt st.g j = some m →
        nameAt (offerSection fc totalIdx st) j = some m) ∧
      (∀ (j : Nat) (p : NodeName × Nat), st.g.nodes[j]? = some p → p.1 ≠ .offer →
        p.1 ≠ .accepted → p.1 ≠ .declined →
        (offerSection fc totalIdx st).nodes[j]? = some p) ∧
      (∀ e ∈ st.g.edges, e ∈ (offerSection fc totalIdx st).edges) ∧
      edgesOk (offerSection fc totalIdx st) ∧
      (∀ q ∈ (offerSection fc totalIdx st).nodes, q ∈ st.g.nodes ∨
        q = (.offer, fc.offer + fc.accepted + fc.declined_offer) ∨
        q = (.accepted, fc.accepted) ∨ q = (.declined, fc.declined_offer)) := by
  unfold offerSection
  by_cases hcond : 0 < fc.offer ∨ 0 < fc.accepted ∨ 0 < fc.declined_offer
  swap
  · rw [if_neg hcond]
    exact ⟨fun j m h => h, fun j p hp _ _ _ => hp, fun e he => he, hok,
      fun q hq => Or.inl hq⟩
  rw [if_pos hcond]
  dsimp only
  set ro := addLabel st.g .offer (fc.offer + fc.accepted + fc.declined_offer) with hro
  set osrc := if sortedStages fc = [] then totalIdx else st.lastIdx with hosrc
  set g1 := addEdge ro.1 osrc ro.2 (fc.offer + fc.accepted + fc.declined_offer)
    (color_map ("offer")) with hg1
  set g2 := addOfferLeaf g1 ro.2 fc.accepted .accepted ("accepted") with hg2
  set g3 := addOfferLeaf g2 ro.2 fc.declined_offer .declined ("declined") with hg3
  have hoffer_name_g1 : nameAt g1 ro.2 = some .offer := by
    rw [hg1, addEdge_nameAt, hro]
    exact addLabel_nameAt_target _ _ _
  have hoffer_name_g2 : nameAt g2 ro.2 = some .offer := by
    rw [hg2]
    exact aol_nameAt_mono hoffer_name_g1 _ _ _ _
  refine ⟨?_, ?_, ?_, ?_, ?_⟩
  · intro j m h
    rw [hg3]
    refine aol_nameAt_mono ?_ _ _ _ _
    rw [hg2]
    refine aol_nameAt_mono ?_ _ _ _ _
    rw [hg1, addEdge_nameAt, hro]
    exact addLabel_nameAt_mono h _ _
  · intro j p hp hno hna hnd
    rw [hg3]
    refine aol_entry_pres ?_ _ _ _ _ hnd
    rw [hg2]
    refine aol_entry_pres ?_ _ _ _ _ hna
    rw [hg1, addEdge_nodes, hro]
    exact addLabel_entry_pres hp _ _ hno
  · intro e he
    rw [hg3]
    refine aol_edges_mono _ _ _ _ _ e ?_
    rw [hg2]
    refine aol_edges_mono _ _ _ _ _ e ?_
    rw [hg1, addEdge_edges, hro, addLabel_edges]
    exact List.mem_append_left _ he
  · have hok1 : edgesOk g1 := by
      obtain ⟨m, hm, hs⟩ := hsrc
      rw [hg1]
      refine edgesOk_addEdge ?_ ⟨m, ?_, hs⟩ _ _ _
      · rw [hro]
        exact edgesOk_addLabel hok _ _
      · rw [hro]
        exact addLabel_nameAt_mono hm _ _
    have hok2 : edgesOk g2 := by
      rw [hg2]
      exact aol_edgesOk hok1 ⟨.offer, hoffer_name_g1, by simp [isSink]⟩ _ _ _
    rw [hg3]
    exact aol_edgesOk hok2 ⟨.offer, hoffer_name_g2, by simp [isSink]⟩ _ _ _
  · intro q hq
    rw [hg3] at hq
    rcases aol_mem_nodes hq with h2 | h2
    swap
    · exact Or.inr (Or.inr (Or.inr h2))
    rw [hg2] at h2
    rcases aol_mem_nodes h2 with h1 | h1
    swap
    · exact Or.inr (Or.inr (Or.inl h1))
    rw [hg1, addEdge_nodes, hro] at h1
    rcases addLabel_mem_nodes h1 with h0 | h0
    · exact Or.inl h0
    · exact Or.inr (Or.inl h0)

theorem mem_insertSorted {a n : Nat} :
    ∀ {l : List Nat}, a ∈ insertSorted n l ↔ a = n ∨ a ∈ l := by
  intro l
  induction l with
  | nil => simp [insertSorted]
  | cons m rest ih =>
    unfold insertSorted
    split_ifs with h
    · simp [List.mem_cons]
    · simp only [List.mem_cons, ih]
      tauto

theorem mem_sortedDedup {a : Nat} {l : List Nat} : a ∈ sortedDedup l ↔ a ∈ l := by
  unfold sortedDedup
  have aux : ∀ m : List Nat, a ∈ m.foldr insertSorted [] ↔ a ∈ m := by
    intro m
    induction m with
    | nil => simp
    | cons x xs ih =>
      rw [List.foldr_cons, mem_insertSorted, ih]
      simp [List.mem_cons, eq_comm]
  rw [aux, List.mem_dedup]

theorem mem_existingStages (fc : FlowCounts) (s : Nat) :
    s ∈ existingStages fc ↔ 0 < aggAt fc s := by
  unfold existingStages aggAt
  rw [mem_sortedDedup]
  simp only [List.mem_append]
  constructor
  · rintro ((h | h) | h) <;> (have hcp := List.count_pos_iff.mpr h; omega)
  · intro h
    by_contra hcon
    push_neg at hcon
    obtain ⟨⟨h1, h2⟩, h3⟩ := hcon
    have c1 : fc.rejected_from_interview.count s = 0 := by
      by_contra hc
      exact h1 (List.count_pos_iff.mp (by omega))
    have c2 : fc.withdrew_from_interview.count s = 0 := by
      by_contra hc
      exact h2 (List.count_pos_iff.mp (by omega))
    have c3 : fc.ghosted_from_interview.count s = 0 := by
      by_contra hc
      exact h3 (List.count_pos_iff.mp (by omega))
    omega

theorem maxStage_spec (fc : FlowCounts) (hne : existingStages fc ≠ []) :
    maxStage fc ∈ existingStages fc ∧ ∀ b ∈ existingStages fc, b ≤ maxStage fc := by
  cases hm : (existingStages fc).max? with
  | none =>
    rw [List.max?_eq_none_iff] at hm
    exact absurd hm hne
  | some a =>
    have ha := (List.max?_eq_some_iff (fun a => Nat.le_refl a)
      (fun a b => max_choice a b) (fun a b c => Nat.max_le)).mp hm
    unfold maxStage
    rw [hm]
    exact ha

theorem sortedStages_eq_range (fc : FlowCounts) (hne : existingStages fc ≠ []) :
    sortedStages fc = List.range' 1 (maxStage fc) := by
  unfold sortedStages
  rw [if_neg hne]
  apply List.filter_eq_self.mpr
  intro i hi
  obtain ⟨h1, h2⟩ := List.mem_range'_1.mp hi
  simp only [decide_eq_true_eq]
  rcases Nat.lt_or_ge i (maxStage fc) with h | h
  · exact Or.inr h
  · have hieq : i = maxStage fc := by omega
    rw [hieq]
    exact Or.inl (maxStage_spec fc hne).1

/-- The heuristic fill of an inferred stage borrows the aggregate outcome
count of the nearest following stage with nonzero data. -/
theorem stageDisplay_borrow (fc : FlowCounts) (hne : existingStages fc ≠ [])
    (i : Nat) (hzero : aggAt fc i = 0) (hlt : i < maxStage fc) :
    ∃ j, i < j ∧ (∀ t, i < t → t < j → aggAt fc t = 0) ∧ 0 < aggAt fc j ∧
      stageDisplay fc i = aggAt fc j := by
  have hmaxmem : maxStage fc ∈ (existingStages fc).filter (fun s => decide (i < s)) := by
    rw [List.mem_filter]
    exact ⟨(maxStage_spec fc hne).1, by simp [hlt]⟩
  cases hmin : ((existingStages fc).filter (fun s => decide (i < s))).min? with
  | none =>
    rw [List.min?_eq_none_iff] at hmin
    rw [hmin] at hmaxmem
    simp at hmaxmem
  | some j =>
    obtain ⟨hjmem, hjle⟩ := (List.min?_eq_some_iff (fun a => Nat.le_refl a)
      (fun a b => min_choice a b) (fun a b c => Nat.le_min)).mp hmin
    rw [List.mem_filter] at hjmem
    obtain ⟨hjex, hjgt⟩ := hjmem
    refine ⟨j, by simpa using hjgt, ?_, (mem_existingStages fc j).mp hjex, ?_⟩
    · intro t ht1 ht2
      by_contra hcon
      have htex : t ∈ existingStages fc := (mem_existingStages fc t).mpr (by omega)
      have hle : j ≤ t := hjle t (by rw [List.mem_filter]; exact ⟨htex, by simp [ht1]⟩)
      omega
    · unfold stageDisplay
      rw [if_pos ⟨hne, hzero, hlt⟩, hmin]

/-- Every stage recorded in the three `*_from_interview` tallies is
positive (companies are keyed there by `highest_interview` only when it is
`> 0`). -/
theorem flow_counts_stage_pos (flows : List (List Char × Flow)) :
    (∀ x ∈ (flow_counts flows).rejected_from_interview, 0 < x) ∧
      (∀ x ∈ (flow_counts flows).withdrew_from_interview, 0 < x) ∧
      (∀ x ∈ (flow_counts flows).ghosted_from_interview, 0 < x) := by
  unfold flow_counts
  suffices aux : ∀ (l : List (List Char × Flow)) (fc0 : FlowCounts),
      ((∀ x ∈ fc0.rejected_from_interview, 0 < x) ∧
        (∀ x ∈ fc0.withdrew_from_interview, 0 < x) ∧
        (∀ x ∈ fc0.ghosted_from_interview, 0 < x)) →
      ((∀ x ∈ (l.foldl (fun fc p => if p.1 = unknownCompany then fc else bucketFlow fc p.2)
          fc0).rejected_from_interview, 0 < x) ∧
        (∀ x ∈ (l.foldl (fun fc p => if p.1 = unknownCompany then fc else bucketFlow fc p.2)
          fc0).withdrew_from_interview, 0 < x) ∧
        (∀ x ∈ (l.foldl (fun fc p => if p.1 = unknownCompany then fc else bucketFlow fc p.2)
          fc0).ghosted_from_interview, 0 < x)) by
    exact aux flows initCounts ⟨by simp [initCounts], by simp [initCounts], by simp [initCounts]⟩
  intro l
  induction l with
  | nil => exact fun fc0 h => h
  | cons p rest ih =>
    intro fc0 h
    rw [List.foldl_cons]
    apply ih
    split_ifs with hunk
    · exact h
    · obtain ⟨h1, h2, h3⟩ := h
      unfold bucketFlow
      split_ifs with c1 c2 c3 c4 c5 c6 c7 c8 <;> refine ⟨?_, ?_, ?_⟩ <;> intro x hx <;>
        first
          | exact h1 x hx
          | exact h2 x hx
          | exact h3 x hx
          | (have hx2 := List.mem_cons.mp hx
             rcases hx2 with hxe | hx'
             · omega
             · first
                 | exact h1 x hx'
                 | exact h2 x hx'
                 | exact h3 x hx')

/-- Assembly of the whole Sankey builder: edges always leave non-sink nodes;
any node labelled `Offer` carries the count `offer + accepted + declined`;
and when any interview stage was bucketed, every stage `1..maxStage` has a
node with its displayed count and its chain edge. -/
theorem sankey_master (emails : List Email) :
    edgesOk (generate_sankey_diagram emails) ∧
      (∀ q ∈ (generate_sankey_diagram emails).nodes, q.1 = .offer →
        q.2 = (flow_counts (get_company_flow emails)).offer +
          (flow_counts (get_company_flow emails)).accepted +
          (flow_counts (get_company_flow emails)).declined_offer) ∧
      (existingStages (flow_counts (get_company_flow emails)) ≠ [] →
        ∀ i, 1 ≤ i → i ≤ maxStage (flow_counts (get_company_flow emails)) →
        ∃ idx, (generate_sankey_diagram emails).nodes[idx]? =
            some (.stage i, stageDisplay (flow_counts (get_company_flow emails)) i) ∧
          ∃ e ∈ (generate_sankey_diagram emails).edges, e.tgt = idx ∧
            e.value = stageDisplay (flow_counts (get_company_flow emails)) i ∧
            nameAt (generate_sankey_diagram emails) e.src =
              some (if i = 1 then NodeName.total else NodeName.stage (i - 1))) := by
  obtain ⟨b1, b2, b3, b4, b5⟩ := sankeyBase_spec emails
  by_cases hst : existingStages (flow_counts (get_company_flow emails)) = []
  · -- no interview stages: the loop is empty
    have hsorted : sortedStages (flow_counts (get_company_flow emails)) = [] := by
      unfold sortedStages
      rw [if_pos hst]
    have hgen : generate_sankey_diagram emails =
        offerSection (flow_counts (get_company_flow emails)) (sankeyBase emails).2
          (sankeyBase emails).1 := by
      unfold generate_sankey_diagram
      dsimp only
      rw [hsorted]
      rw [List.foldl_nil]
    have hsrc : ∃ m, nameAt (sankeyBase emails).1.g
        (if sortedStages (flow_counts (get_company_flow emails)) = []
          then (sankeyBase emails).2 else (sankeyBase emails).1.lastIdx) = some m ∧
        isSink m = false := by
      rw [hsorted, if_pos rfl]
      exact ⟨.total, b1, by simp [isSink]⟩
    obtain ⟨o1, o2, o3, o4, o5⟩ := offerSection_spec
      (flow_counts (get_company_flow emails)) (sankeyBase emails).2
      (sankeyBase emails).1 b2 hsrc
    rw [hgen]
    refine ⟨o4, ?_, fun hne => absurd hst hne⟩
    intro q hq hqo
    rcases o5 q hq with h0 | h0 | h0 | h0
    · have : q.1 ∈ namesOf (sankeyBase emails).1.g :=
        List.mem_map_of_mem _ h0
      rcases b5 _ this with h | h | h | h | h | h <;> rw [hqo] at h <;> cases h
    · rw [h0]
    · rw [h0] at hqo
      cases hqo
    · rw [h0] at hqo
      cases hqo
  · -- at least one interview stage
    have hmaxpos : 0 < maxStage (flow_counts (get_company_flow emails)) := by
      have hmem := (maxStage_spec _ hst).1
      rw [mem_existingStages] at hmem
      by_contra hcon
      have h0 : maxStage (flow_counts (get_company_flow emails)) = 0 := by omega
      obtain ⟨p1, p2, p3⟩ := flow_counts_stage_pos (get_company_flow emails)
      unfold aggAt at hmem
      rcases Nat.lt_or_ge 0 ((flow_counts (get_company_flow emails)).rejected_from_interview.count
        (maxStage (flow_counts (get_company_flow emails)))) with hcnt | hcnt
      · have := p1 _ (List.count_pos_iff.mp hcnt)
        omega
      · rcases Nat.lt_or_ge 0 ((flow_counts (get_company_flow emails)).withdrew_from_interview.count
          (maxStage (flow_counts (get_company_flow emails)))) with hcnt2 | hcnt2
        · have := p2 _ (List.count_pos_iff.mp hcnt2)
          omega
        · have hcnt3 : 0 < (flow_counts (get_company_flow emails)).ghosted_from_interview.count
              (maxStage (flow_counts (get_company_flow emails))) := by omega
          have := p3 _ (List.count_pos_iff.mp hcnt3)
          omega
    have hsorted := sortedStages_eq_range _ hst
    have hgen : generate_sankey_diagram emails =
        offerSection (flow_counts (get_company_flow emails)) (sankeyBase emails).2
          ((List.range' (0 + 1) (maxStage (flow_counts (get_company_flow emails)))).foldl
            (stageStep (flow_counts (get_company_flow emails)) (sankeyBase emails).2)
            (sankeyBase emails).1) := by
      unfold generate_sankey_diagram
      dsimp only
      rw [hsorted]
    obtain ⟨l1, l2, l3, l4, l5, l6, l7, l8⟩ :=
      loop_spec (flow_counts (get_company_flow emails)) (sankeyBase emails).2
        (maxStage (flow_counts (get_company_flow emails))) 0 (sankeyBase emails).1
        b1 b3 (fun _ => b4) (fun h0 => absurd h0 (by omega)) b2
    have hlastentry := l6 hmaxpos
    have hsortedne : sortedStages (flow_counts (get_company_flow emails)) ≠ [] := by
      rw [hsorted]
      intro hcon
      have : maxStage (flow_counts (get_company_flow emails)) = 0 := by
        by_contra hmz
        have h1 : 0 < maxStage (flow_counts (get_company_flow emails)) := by omega
        rw [List.range'_eq_nil] at hcon
        omega
      omega
    have hsrc : ∃ m, nameAt ((List.range' (0 + 1)
        (maxStage (flow_counts (get_company_flow emails)))).foldl
          (stageStep (flow_counts (get_company_flow emails)) (sankeyBase emails).2)
          (sankeyBase emails).1).g
        (if sortedStages (flow_counts (get_company_flow emails)) = []
          then (sankeyBase emails).2
          else ((List.range' (0 + 1) (maxStage (flow_counts (get_company_flow emails)))).foldl
            (stageStep (flow_counts (get_company_flow emails)) (sankeyBase emails).2)
            (sankeyBase emails).1).lastIdx) = some m ∧ isSink m = false := by
      rw [if_neg hsortedne]
      refine ⟨.stage (0 + maxStage (flow_counts (get_company_flow emails))), ?_,
        by simp [isSink]⟩
      unfold nameAt
      rw [hlastentry]
      rfl
    obtain ⟨o1, o2, o3, o4, o5⟩ := offerSection_spec
      (flow_counts (get_company_flow emails)) (sankeyBase emails).2
      ((List.range' (0 + 1) (maxStage (flow_counts (get_company_flow emails)))).foldl
        (stageStep (flow_counts (get_company_flow emails)) (sankeyBase emails).2)
        (sankeyBase emails).1) l4 hsrc
    rw [hgen]
    refine ⟨o4, ?_, ?_⟩
    · intro q hq hqo
      rcases o5 q hq with h0 | h0 | h0 | h0
      · have hmemname : q.1 ∈ namesOf ((List.range' (0 + 1)
            (maxStage (flow_counts (get_company_flow emails)))).foldl
            (stageStep (flow_counts (get_company_flow emails)) (sankeyBase emails).2)
            (sankeyBase emails).1).g := List.mem_map_of_mem _ h0
        rcases l7 _ hmemname with h | h | h
        · rcases b5 _ h with hh | hh | hh | hh | hh | hh <;> rw [hqo] at hh <;> cases hh
        · obtain ⟨t, ht⟩ := h
          rw [hqo] at ht
          cases ht
        · rw [hqo] at h
          simp [isSink] at h
      · rw [h0]
      · rw [h0] at hqo
        cases hqo
      · rw [h0] at hqo
        cases hqo
    · intro _ i hi1 hi2
      obtain ⟨idx, hidx, e, hemem, het, hev, hes⟩ := l8 i (by omega) (by omega)
      refine ⟨idx, ?_, e, o3 e hemem, het, hev, o1 _ _ hes⟩
      exact o2 idx _ hidx (by simp) (by simp) (by simp)

theorem bucketFlow_offer (fc : FlowCounts) (fl : Flow) :
    (bucketFlow fc fl).offer = fc.offer := by
  unfold bucketFlow
  split_ifs with c1 c2 c3 c4 c5 c6 c7 c8 <;> simp_all

theorem flow_counts_offer (flows : List (List Char × Flow)) :
    (flow_counts flows).offer = 0 := by
  unfold flow_counts
  suffices aux : ∀ (l : List (List Char × Flow)) (fc0 : FlowCounts),
      (l.foldl (fun fc p => if p.1 = unknownCompany then fc else bucketFlow fc p.2)
        fc0).offer = fc0.offer from aux flows initCounts
  intro l
  induction l with
  | nil => intro fc0; rfl
  | cons p rest ih =>
    intro fc0
    rw [List.foldl_cons, ih]
    split_ifs with hunk
    · rfl
    · exact bucketFlow_offer fc0 p.2

/-- C1 (amended, proved): in every generated flow graph, the terminal sink
nodes (Rejected, Withdrew, Ghosted, Accepted, Declined Offer) have no
outgoing edges — every edge leaves a non-sink node.  (The flow-conservation
half of the original claim is false; see the counterexample.) -/
theorem flowgraph_sinks_no_outgoing (emails : List Email) :
    ∀ e ∈ (generate_sankey_diagram emails).edges,
      ∃ m, nameAt (generate_sankey_diagram emails) e.src = some m ∧
        isSink m = false :=
  (sankey_master emails).1

/-- Witness for C1 (amended) at a one-email input: the Applied→Total edge
leaves the non-sink Applied node. -/
theorem flowgraph_sinks_no_outgoing_witness :
    ((⟨0, 1, 1, "rgba(173, 216, 230, 0.8)"⟩ : GEdge) ∈
        (generate_sankey_diagram [⟨"acme".toList, .applied⟩]).edges) ∧
      ∃ m, nameAt (generate_sankey_diagram [⟨"acme".toList, .applied⟩]) 0 = some m ∧
        isSink m = false :=
  ⟨by decide,
   flowgraph_sinks_no_outgoing [⟨"acme".toList, .applied⟩]
     ⟨0, 1, 1, "rgba(173, 216, 230, 0.8)"⟩ (by decide)⟩

/-- C1 counterexample: for two `applied` emails of the same company, the
`Total Applications` node (a non-sink node) has count 2 but its outgoing
edges sum to 1: the outcome buckets count companies while the node count
counts emails, so flow conservation fails. -/
theorem flowgraph_conservation_cex :
    (generate_sankey_diagram
        [⟨"acme".toList, .applied⟩, ⟨"acme".toList, .applied⟩]).nodes[1]? =
      some (.total, 2) ∧
      isSink .total = false ∧
      outgoingSum (generate_sankey_diagram
        [⟨"acme".toList, .applied⟩, ⟨"acme".toList, .applied⟩]) 1 = 1 := by
  decide

/-- C7 (confirmed): whenever any company is bucketed at an interview stage,
the graph has a node for every stage `1..maxStage` carrying the displayed
at-stage count, the first stage is fed from `Total Applications` and each
later stage from its immediate predecessor; and an inferred stage with zero
direct data displays the aggregate outcome count of the nearest following
stage with nonzero data. -/
theorem stage_inference_nodes (emails : List Email)
    (hne : existingStages (flow_counts (get_company_flow emails)) ≠ [])
    (i : Nat) (h1 : 1 ≤ i)
    (h2 : i ≤ maxStage (flow_counts (get_company_flow emails))) :
    (∃ idx, (generate_sankey_diagram emails).nodes[idx]? =
        some (.stage i, stageDisplay (flow_counts (get_company_flow emails)) i) ∧
      ∃ e ∈ (generate_sankey_diagram emails).edges, e.tgt = idx ∧
        e.value = stageDisplay (flow_counts (get_company_flow emails)) i ∧
        nameAt (generate_sankey_diagram emails) e.src =
          some (if i = 1 then NodeName.total else NodeName.stage (i - 1))) ∧
      (aggAt (flow_counts (get_company_flow emails)) i = 0 →
        i < maxStage (flow_counts (get_company_flow emails)) →
        ∃ j, i < j ∧
          (∀ t, i < t → t < j → aggAt (flow_counts (get_company_flow emails)) t = 0) ∧
          0 < aggAt (flow_counts (get_company_flow emails)) j ∧
          stageDisplay (flow_counts (get_company_flow emails)) i =
            aggAt (flow_counts (get_company_flow emails)) j) :=
  ⟨(sankey_master emails).2.2 hne i h1 h2,
   fun hz hlt => stageDisplay_borrow _ hne i hz hlt⟩

/-- Witness for C7: one company rejected after interview stage 2; stage 1 is
inferred with zero direct data and borrows stage 2's count. -/
theorem stage_inference_nodes_witness :
    (existingStages (flow_counts (get_company_flow
        [⟨"acme".toList, .interview 2⟩, ⟨"acme".toList, .rejected⟩])) ≠ []) ∧
      ((∃ idx, (generate_sankey_diagram
          [⟨"acme".toList, .interview 2⟩, ⟨"acme".toList, .rejected⟩]).nodes[idx]? =
            some (.stage 1, stageDisplay (flow_counts (get_company_flow
              [⟨"acme".toList, .interview 2⟩, ⟨"acme".toList, .rejected⟩])) 1) ∧
        ∃ e ∈ (generate_sankey_diagram
            [⟨"acme".toList, .interview 2⟩, ⟨"acme".toList, .rejected⟩]).edges,
          e.tgt = idx ∧
            e.value = stageDisplay (flow_counts (get_company_flow
              [⟨"acme".toList, .interview 2⟩, ⟨"acme".toList, .rejected⟩])) 1 ∧
            nameAt (generate_sankey_diagram
              [⟨"acme".toList, .interview 2⟩, ⟨"acme".toList, .rejected⟩]) e.src =
              some (if 1 = 1 then NodeName.total else NodeName.stage (1 - 1))) ∧
      (aggAt (flow_counts (get_company_flow
          [⟨"acme".toList, .interview 2⟩, ⟨"acme".toList, .rejected⟩])) 1 = 0 →
        1 < maxStage (flow_counts (get_company_flow
          [⟨"acme".toList, .interview 2⟩, ⟨"acme".toList, .rejected⟩])) →
        ∃ j, 1 < j ∧
          (∀ t, 1 < t → t < j → aggAt (flow_counts (get_company_flow
            [⟨"acme".toList, .interview 2⟩, ⟨"acme".toList, .rejected⟩])) t = 0) ∧
          0 < aggAt (flow_counts (get_company_flow
            [⟨"acme".toList, .interview 2⟩, ⟨"acme".toList, .rejected⟩])) j ∧
          stageDisplay (flow_counts (get_company_flow
            [⟨"acme".toList, .interview 2⟩, ⟨"acme".toList, .rejected⟩])) 1 =
            aggAt (flow_counts (get_company_flow
              [⟨"acme".toList, .interview 2⟩, ⟨"acme".toList, .rejected⟩])) j)) :=
  ⟨by decide,
   stage_inference_nodes [⟨"acme".toList, .interview 2⟩, ⟨"acme".toList, .rejected⟩]
     (by decide) 1 (by decide) (by decide)⟩

/-- C10 (confirmed): the standalone `offer` bucket is always zero (the guard
`has_withdrew or not has_accepted` is always true in the offer branch), so
the Offer node's count always equals `accepted + declined_offer` and no
company flows to an outstanding-offer outcome. -/
theorem offer_bucket_always_zero (emails : List Email) :
    (flow_counts (get_company_flow emails)).offer = 0 ∧
      ∀ q ∈ (generate_sankey_diagram emails).nodes, q.1 = .offer →
        q.2 = (flow_counts (get_company_flow emails)).accepted +
          (flow_counts (get_company_flow emails)).declined_offer := by
  have hzero : (flow_counts (get_company_flow emails)).offer = 0 :=
    flow_counts_offer _
  refine ⟨hzero, ?_⟩
  intro q hq hqo
  have hsum := (sankey_master emails).2.1 q hq hqo
  omega

/-- Witness for C10: a single offered (not accepted) company yields an Offer
node of count 1 = 0 accepted + 1 declined. -/
theorem offer_bucket_always_zero_witness :
    ((NodeName.offer, 1) ∈ (generate_sankey_diagram [⟨"acme".toList, .offer⟩]).nodes) ∧
      (1 : Nat) = (flow_counts (get_company_flow [⟨"acme".toList, .offer⟩])).accepted +
        (flow_counts (get_company_flow [⟨"acme".toList, .offer⟩])).declined_offer :=
  ⟨by decide,
   (offer_bucket_always_zero [⟨"acme".toList, .offer⟩]).2 (NodeName.offer, 1)
     (by decide) rfl⟩

/-- The total of all outcome buckets:
`accepted + offer + declinedOffer + totalRejected + totalWithdrew +
totalGhosted` (each total being direct + from-interview). -/
def bucketSum (fc : FlowCounts) : Nat :=
  fc.accepted + fc.offer + fc.declined_offer +
    (fc.rejected_direct + fc.rejected_from_interview.length) +
    (fc.withdrew_direct + fc.withdrew_from_interview.length) +
    (fc.ghosted_direct + fc.ghosted_from_interview.length)

/-- The bucketing chain places each company in exactly one bucket. -/
theorem bucketFlow_sum (fc : FlowCounts) (fl : Flow) :
    bucketSum (bucketFlow fc fl) = bucketSum fc + 1 := by
  unfold bucketFlow bucketSum
  split_ifs with c1 c2 c3 c4 c5 c6 c7 c8 <;> simp [List.length_cons] <;> omega

theorem flow_counts_sum (flows : List (List Char × Flow)) :
    bucketSum (flow_counts flows) =
      (flows.filter (fun p => decide (p.1 ≠ unknownCompany))).length := by
  unfold flow_counts
  suffices aux : ∀ (l : List (List Char × Flow)) (fc0 : FlowCounts),
      bucketSum (l.foldl (fun fc p => if p.1 = unknownCompany then fc else bucketFlow fc p.2)
        fc0) = bucketSum fc0 + (l.filter (fun p => decide (p.1 ≠ unknownCompany))).length by
    rw [aux flows initCounts]
    simp [bucketSum, initCounts]
  intro l
  induction l with
  | nil => intro fc0; simp
  | cons p rest ih =>
    intro fc0
    rw [List.foldl_cons, ih]
    by_cases hunk : p.1 = unknownCompany
    · rw [if_pos hunk, List.filter_cons, if_neg (by simp [hunk])]
    · rw [if_neg hunk, bucketFlow_sum, List.filter_cons, if_pos (by simp [hunk])]
      rw [List.length_cons]
      omega

theorem updateFlows_keys (acc : List (List Char × Flow)) (c : List Char) (s : Status) :
    (updateFlows acc c s).map Prod.fst =
      if c ∈ acc.map Prod.fst then acc.map Prod.fst else acc.map Prod.fst ++ [c] := by
  induction acc with
  | nil => simp [updateFlows]
  | cons p rest ih =>
    obtain ⟨c', fl⟩ := p
    by_cases hc : c' = c
    · subst hc
      simp [updateFlows]
    · simp only [updateFlows, if_neg hc, List.map_cons]
      rw [ih]
      by_cases hm : c ∈ rest.map Prod.fst
      · rw [if_pos hm, if_pos (by simp [List.mem_cons, hm])]
      · rw [if_neg hm, if_neg (by simp [List.mem_cons, hm]; exact fun hcon => hc hcon.symm)]
        simp

theorem get_company_flow_keys (emails : List Email) :
    ((get_company_flow emails).map Prod.fst).Nodup ∧
      ∀ c, c ∈ (get_company_flow emails).map Prod.fst ↔ ∃ e ∈ emails, e.company = c := by
  unfold get_company_flow
  suffices aux : ∀ (l : List Email) (acc : List (List Char × Flow)),
      (acc.map Prod.fst).Nodup →
      (((l.foldl (fun a e => updateFlows a e.company e.status) acc).map Prod.fst).Nodup ∧
        ∀ c, c ∈ (l.foldl (fun a e => updateFlows a e.company e.status) acc).map Prod.fst ↔
          c ∈ acc.map Prod.fst ∨ ∃ e ∈ l, e.company = c) by
    obtain ⟨h1, h2⟩ := aux emails [] (by simp)
    refine ⟨h1, fun c => ?_⟩
    rw [h2 c]
    simp
  intro l
  induction l with
  | nil =>
    intro acc h
    exact ⟨h, fun c => by simp⟩
  | cons e rest ih =>
    intro acc h
    rw [List.foldl_cons]
    have hkeys := updateFlows_keys acc e.company e.status
    have hnodup' : ((updateFlows acc e.company e.status).map Prod.fst).Nodup := by
      rw [hkeys]
      split_ifs with hmem
      · exact h
      · rw [List.nodup_append]
        exact ⟨h, List.nodup_singleton _, by
          intro a ha hb
          rw [List.mem_singleton] at hb
          subst hb
          exact hmem ha⟩
    obtain ⟨hn, hmem⟩ := ih (updateFlows acc e.company e.status) hnodup'
    refine ⟨hn, fun c => ?_⟩
    rw [hmem c, hkeys]
    by_cases hmemc : e.company ∈ acc.map Prod.fst
    · rw [if_pos hmemc]
      constructor
      · rintro (hc | ⟨e', he', hce⟩)
        · exact Or.inl hc
        · exact Or.inr ⟨e', List.mem_cons_of_mem _ he', hce⟩
      · rintro (hc | ⟨e', he', hce⟩)
        · exact Or.inl hc
        · rcases List.mem_cons.mp he' with he1 | he1
          · subst he1
            exact Or.inl (hce ▸ hmemc)
          · exact Or.inr ⟨e', he1, hce⟩
    · rw [if_neg hmemc]
      constructor
      · rintro (hc | ⟨e', he', hce⟩)
        · rcases List.mem_append.mp hc with h | h
          · exact Or.inl h
          · rw [List.mem_singleton] at h
            exact Or.inr ⟨e, List.mem_cons_self _ _, h.symm⟩
        · exact Or.inr ⟨e', List.mem_cons_of_mem _ he', hce⟩
      · rintro (hc | ⟨e', he', hce⟩)
        · exact Or.inl (List.mem_append_left _ hc)
        · rcases List.mem_cons.mp he' with he1 | he1
          · subst he1
            exact Or.inl (List.mem_append_right _ (by rw [List.mem_singleton, hce]))
          · exact Or.inr ⟨e', he1, hce⟩

/-- C8 (confirmed): each distinct non-"Unknown" company lands in exactly one
outcome bucket: `accepted + offer + declinedOffer + totalRejected +
totalWithdrew + totalGhosted` equals the number of distinct non-"Unknown"
companies (the company keys of the flow map are exactly the companies
appearing in the input, without duplicates). -/
theorem company_bucket_conservation (emails : List Email) :
    ((get_company_flow emails).map Prod.fst).Nodup ∧
      (∀ c, c ∈ (get_company_flow emails).map Prod.fst ↔ ∃ e ∈ emails, e.company = c) ∧
      bucketSum (flow_counts (get_company_flow emails)) =
        ((get_company_flow emails).filter
          (fun p => decide (p.1 ≠ unknownCompany))).length :=
  ⟨(get_company_flow_keys emails).1, (get_company_flow_keys emails).2,
   flow_counts_sum _⟩

end Sisifus
